import Mathlib

/-!
Verification of the CelestiGuard counting core (cogs/counting.py and the
counting-state rows of services/db.py).

Message text is modeled as `List Char`.  Two external collaborators of the
parser are modeled as oracle parameters, quantified over in every theorem:

* `uni : Char → Option Nat` models the combination of Python's
  `str.isdigit` test and `unicodedata.digit` restricted to non-ASCII
  characters: `uni c = some d` means `c` is a non-ASCII Unicode decimal
  digit of value `d`; `uni c = none` means `c` is left unchanged by
  `_normalize_unicode_digits`.  A faithful oracle returns `none` on every
  ASCII character.

* `wordx : Char → Bool` models the non-ASCII part of the regex class `\w`
  (Unicode letters and digits).  A faithful oracle is disjoint from the
  whitespace class.
-/

set_option linter.unusedVariables false

/-- Characters treated as whitespace by Python's `str.strip`, `str.split`
and the regex class `\s`: ASCII whitespace controls plus Unicode spaces. -/
def py_space_chars : List Char :=
  ['\t', '\n', '\x0b', '\x0c', '\r', '\x1c', '\x1d', '\x1e', '\x1f', ' ',
   '\x85', '\xa0', ' ', ' ', ' ', ' ', ' ', ' ',
   ' ', ' ', ' ', ' ', ' ', ' ', ' ',
   ' ', ' ', ' ', '　']

/-- Python `str.isspace` on a single character. -/
def py_isspace (c : Char) : Bool := py_space_chars.contains c

/-- Python `str.strip()`: drop whitespace from both ends. -/
def py_strip (s : List Char) : List Char :=
  ((s.dropWhile py_isspace).reverse.dropWhile py_isspace).reverse

/-- Value of a list of ASCII digit characters read in base 10
(most significant first), as Python `int` does on a digit string. -/
def digits_to_nat (s : List Char) : Nat :=
  s.foldl (fun a c => a * 10 + (c.toNat - 48)) 0

/-- Base-10 digits of `n`, least significant first, computed with fuel so
that it reduces in the kernel; agrees with `Nat.digits 10` (proved below). -/
def to_digits_aux : Nat → Nat → List Nat
  | 0, _ => []
  | _ + 1, 0 => []
  | fuel + 1, n + 1 => ((n + 1) % 10) :: to_digits_aux fuel ((n + 1) / 10)

/-- Base-10 digits of `n`, least significant first. -/
def nat_digits (n : Nat) : List Nat := to_digits_aux n n

/-- Python `str(n)` for a natural number: its decimal representation. -/
def str_of_nat (n : Nat) : List Char :=
  if n = 0 then ['0'] else ((nat_digits n).map Nat.digitChar).reverse

/-- `_normalize_unicode_digits`: every character recognized by the `uni`
oracle (a non-ASCII Unicode decimal digit) is replaced by the decimal
representation of its digit value, all other characters are kept. -/
def _normalize_unicode_digits (uni : Char → Option Nat) (s : List Char) : List Char :=
  s.foldr (fun ch acc =>
    (match uni ch with
     | some d => str_of_nat d
     | none => [ch]) ++ acc) []

/-- Python `str.isdigit` on one character: an ASCII digit or a character
the `uni` oracle recognizes as a non-ASCII digit. -/
def py_isdigit (uni : Char → Option Nat) (c : Char) : Bool :=
  c.isDigit || (uni c).isSome

/-- Shared sign handling of Python numeric-string parsing: strip one
leading `-` (recording a negative sign) or one leading `+`; a bare
string is positive. -/
def strip_sign (s : List Char) : Bool × List Char :=
  match s with
  | [] => (false, [])
  | c :: r => if c == '-' then (true, r) else if c == '+' then (false, r) else (false, c :: r)

/-- Tail of Python's `int()` digit grammar: digits with single `_`
separators allowed between digits. -/
def du_tail : List Char → Bool
  | [] => true
  | c :: rest =>
    if c == '_' then
      match rest with
      | [] => false
      | c2 :: rest2 => c2.isDigit && du_tail rest2
    else c.isDigit && du_tail rest

/-- Nonempty digit run with optional underscore separators,
as accepted by Python's `int()`. -/
def py_int_digits (s : List Char) : Bool :=
  match s with
  | [] => false
  | c :: rest => c.isDigit && du_tail rest

/-- Python `int(s)` on a string: optional surrounding whitespace, an
optional single sign, then a digit run (ASCII digits; the callers in this
development only pass strings that were already digit-normalized).
`none` models a raised `ValueError`. -/
def py_int_parse (s : List Char) : Option Int :=
  let sg := strip_sign (py_strip s)
  if py_int_digits sg.2 then
    some ((if sg.1 then -1 else 1) * (digits_to_nat (sg.2.filter (fun c => !(c == '_'))) : Int))
  else none

/-- A parsed Python `Decimal` numeric string: sign, coefficient digits
(integer and fractional part concatenated), number of fractional digits,
and the written exponent. Its value is
`(-1 if neg) * coeff * 10 ^ (exp - scale)`. -/
structure PyDec where
  neg : Bool
  coeff : Nat
  scale : Nat
  exp : Int
  deriving DecidableEq

/-- The optional `. digits?` fractional part: the fraction's digits and
what follows them. -/
def split_dot (s : List Char) : List Char × List Char :=
  match s with
  | [] => ([], [])
  | c :: r =>
    if c == '.' then (r.takeWhile Char.isDigit, r.dropWhile Char.isDigit)
    else ([], c :: r)

/-- `Decimal(s)` on a cleaned token: the decimal numeric-string grammar
`sign? (digits (. digits?)? | . digits) ((e|E) sign? digits)?`.
`none` models a raised `InvalidOperation`.  (`NaN`/`Infinity` forms never
reach this branch of the source: they contain no `e`, `E` or `.`.) -/
def parse_decimal (s : List Char) : Option PyDec :=
  let sg := strip_sign s
  let neg := sg.1
  let ip := sg.2.takeWhile Char.isDigit
  let s2 := sg.2.dropWhile Char.isDigit
  let fd := split_dot s2
  let fp := fd.1
  let s3 := fd.2
  if ip.isEmpty && fp.isEmpty then none
  else
    match s3 with
    | [] => some ⟨neg, digits_to_nat (ip ++ fp), fp.length, 0⟩
    | c :: r =>
      if c == 'e' || c == 'E' then
        let esg := strip_sign r
        let ed := esg.2.takeWhile Char.isDigit
        if ed.isEmpty || !(esg.2.dropWhile Char.isDigit).isEmpty then none
        else some ⟨neg, digits_to_nat (ip ++ fp), fp.length,
                   (if esg.1 then -1 else 1) * (digits_to_nat ed : Int)⟩
      else none

/-- `d == d.to_integral_value()`: the decimal's value is an exact integer. -/
def decimal_is_integral (d : PyDec) : Bool :=
  if (d.scale : Int) ≤ d.exp then true
  else d.coeff % 10 ^ ((d.scale : Int) - d.exp).toNat == 0

/-- `int(d)`: truncation of the decimal's value toward zero (exact on
integral values, the only ones the source converts). -/
def decimal_to_int (d : PyDec) : Int :=
  let mag : Int :=
    if (d.scale : Int) ≤ d.exp then (d.coeff : Int) * 10 ^ (d.exp - (d.scale : Int)).toNat
    else ((d.coeff / 10 ^ ((d.scale : Int) - d.exp).toNat : Nat) : Int)
  if d.neg then -mag else mag

/-- The segment of `s` between the first `e`/`E` and the following
`e`/`E` (or the end): element 1 of `re.split` on `e` with `IGNORECASE`.
`none` when `s` has no `e`/`E` (an `IndexError` in the source, swallowed
by its `except`). -/
def after_first_e : List Char → Option (List Char)
  | [] => none
  | c :: rest =>
    if c == 'e' || c == 'E' then some (rest.takeWhile (fun x => !(x == 'e' || x == 'E')))
    else after_first_e rest

/-- `int(re.split("e", s, IGNORECASE)[1])`, the source's exponent
extraction; `none` models any exception caught by its `except` clause. -/
def exp_after_e (s : List Char) : Option Int :=
  (after_first_e s).bind py_int_parse

/-- `tok.replace(",", "").replace("_", "").replace(" ", "")`. -/
def py_clean (s : List Char) : List Char :=
  s.filter (fun c => !(c == ',' || c == '_' || c == ' '))

/-- The cleaned token contains `e` or `E` (membership test done on
`clean.lower()` in the source). -/
def has_e (s : List Char) : Bool := s.any (fun c => c == 'e' || c == 'E')

/-- The cleaned token contains `e`, `E` or `.`. -/
def has_e_or_dot (s : List Char) : Bool := s.any (fun c => c == 'e' || c == 'E' || c == '.')

/-- `EXTREME_MAX_EXPONENT` from the source. -/
def EXTREME_MAX_EXPONENT : Nat := 18

/-- The Decimal branch of `_try_parse_numeric_token`: parse as Decimal,
require an exact integer value, and when the string carries an exponent,
reject if its magnitude exceeds `EXTREME_MAX_EXPONENT`. -/
def decimal_branch (clean : List Char) : Option Int :=
  match parse_decimal clean with
  | none => none
  | some d =>
    if decimal_is_integral d then
      if has_e clean then
        match exp_after_e clean with
        | none => none
        | some ex => if EXTREME_MAX_EXPONENT < ex.natAbs then none else some (decimal_to_int d)
      else some (decimal_to_int d)
    else none

/-- The plain-integer branch of `_try_parse_numeric_token`:
`clean.lstrip("-").isdigit()` then `int(clean)`. -/
def int_branch (uni : Char → Option Nat) (clean : List Char) : Option Int :=
  let stripped := clean.dropWhile (fun c => c == '-')
  if !stripped.isEmpty && stripped.all (py_isdigit uni) then py_int_parse clean
  else none

/-- `_try_parse_numeric_token` from cogs/counting.py. -/
def _try_parse_numeric_token (uni : Char → Option Nat) (tok0 : List Char) : Option Int :=
  let tok := _normalize_unicode_digits uni (py_strip tok0)
  if tok.isEmpty then none
  else if tok.head? == some '+' then none
  else
    let clean := py_clean tok
    if has_e_or_dot clean then decimal_branch clean
    else int_branch uni clean

/-- `MILESTONES` from the source. -/
def MILESTONES : List Int := [69, 420, 777, 1000, 1337]

/-- `_is_power10_milestone`: positive, and `str(n)` is a nonzero digit
followed by one or more zeros, with at least 5 characters. -/
def _is_power10_milestone (n : Int) : Bool :=
  if n ≤ 0 then false
  else
    match str_of_nat n.toNat with
    | [] => false
    | c :: rest =>
      "123456789".toList.contains c && (!rest.isEmpty && rest.all (fun x => x == '0')) &&
        decide (5 ≤ rest.length + 1)

/-- `is_milestone` from the source. -/
def is_milestone (n : Int) : Bool :=
  MILESTONES.contains n || _is_power10_milestone n

/-- ASCII part of the regex class `\w`. -/
def ascii_word (c : Char) : Bool :=
  ('a' ≤ c && c ≤ 'z') || ('A' ≤ c && c ≤ 'Z') || ('0' ≤ c && c ≤ '9') || c == '_'

/-- The regex class `\w` with the `wordx` oracle supplying the
non-ASCII word characters. -/
def py_isword (wordx : Char → Bool) (c : Char) : Bool := ascii_word c || wordx c

/-- Characters kept inside extreme-mode chunks: word characters and the
sign/point/comma punctuation admitted by the splitting regex. -/
def keep_char (wordx : Char → Bool) (c : Char) : Bool :=
  py_isword wordx c || c == '-' || c == '+' || c == '.' || c == ','

/-- The regex class `[^\w\-\+\.,\s]` the source splits on. -/
def is_delim (wordx : Char → Bool) (c : Char) : Bool :=
  !(keep_char wordx c || py_isspace c)

/-- `re.split` on a single-character class: first field and remaining
fields (the full result list is `first :: rest`, empties included). -/
def split_at_pred (p : Char → Bool) : List Char → List Char × List (List Char)
  | [] => ([], [])
  | c :: rest =>
    let (h, t) := split_at_pred p rest
    if p c then ([], h :: t) else (c :: h, t)

/-- `" ".join(tokens)`. -/
def join_space : List (List Char) → List Char
  | [] => []
  | t :: ts =>
    match ts with
    | [] => t
    | _ :: _ => t ++ ' ' :: join_space ts

/-- Worker for `split_runs`: `cur` holds the reversed current run. -/
def split_runs_aux (p : Char → Bool) : List Char → List Char → List (List Char)
  | cur, [] => if cur.isEmpty then [] else [cur.reverse]
  | cur, c :: rest =>
    if p c then split_runs_aux p (c :: cur) rest
    else if cur.isEmpty then split_runs_aux p [] rest
    else cur.reverse :: split_runs_aux p [] rest

/-- Maximal runs of characters satisfying `p` (used for Python's
argumentless `str.split()`, whose runs are the non-whitespace ones). -/
def split_runs (p : Char → Bool) (s : List Char) : List (List Char) :=
  split_runs_aux p [] s

/-- The chunk loop of `parse_count_message`: first chunk of length at
most 32 that parses. -/
def first_parse (uni : Char → Option Nat) : List (List Char) → Option Int
  | [] => none
  | chunk :: rest =>
    if 32 < chunk.length then first_parse uni rest
    else
      match _try_parse_numeric_token uni chunk with
      | some v => some v
      | none => first_parse uni rest

/-- `parse_count_message` from cogs/counting.py.  The `expected`
parameter is accepted but never read, exactly as in the source. -/
def parse_count_message (uni : Char → Option Nat) (wordx : Char → Bool)
    (content : List Char) (expected : Int) (extreme : Bool) : Option Int :=
  let text := py_strip content
  if !extreme then _try_parse_numeric_token uni text
  else
    match _try_parse_numeric_token uni text with
    | some v => some v
    | none =>
      let sp := split_at_pred (is_delim wordx) text
      let tokens := (sp.1 :: sp.2).filter (fun t => !t.isEmpty)
      first_parse uni (split_runs (fun c => !py_isspace c) (join_space tokens))

/-- Trivial digit oracle: no non-ASCII digits in the input (the faithful
oracle on ASCII-only text). -/
def uni0 : Char → Option Nat := fun _ => none

/-- Trivial extra-word oracle: no non-ASCII word characters. -/
def wordx0 : Char → Bool := fun _ => false

/-- One channel message, as consumed by the listener and the history
reconciler: author bot flag, author id, channel id, raw text. -/
structure HMsg where
  bot : Bool
  author : Int
  channel : Int
  content : List Char
  deriving DecidableEq

/-- The loop body of `backfill_from_history`, walking the history newest
first, carrying `last_number`, `last_user` and the `expected` cursor. -/
def backfill_loop (uni : Char → Option Nat) (wordx : Char → Bool) (extreme : Bool) :
    List HMsg → Int → Option Int → Option Int → Int × Option Int
  | [], ln, lu, _ => (ln, lu)
  | m :: rest, ln, lu, exp? =>
    if m.bot then backfill_loop uni wordx extreme rest ln lu exp?
    else
      match parse_count_message uni wordx m.content (exp?.getD 0) extreme with
      | none => backfill_loop uni wordx extreme rest ln lu exp?
      | some val =>
        match exp? with
        | none => backfill_loop uni wordx extreme rest val (some m.author) (some (val - 1))
        | some e =>
          if val = e then backfill_loop uni wordx extreme rest ln lu (some (e - 1))
          else (ln, lu)

/-- `backfill_from_history` from cogs/counting.py on a newest-first
history list, bounded by `max_messages`. -/
def backfill_from_history (uni : Char → Option Nat) (wordx : Char → Bool)
    (extreme : Bool) (history : List HMsg) (max_messages : Nat) : Int × Option Int :=
  let r := backfill_loop uni wordx extreme (history.take max_messages) 0 none none
  (max 0 r.1, r.2)

/-- One guild's `counting_state` row (services/db.py). -/
structure CountState where
  channel_id : Option Int
  last_number : Int
  last_user_id : Option Int
  high_score : Int
  high_scorer_id : Option Int
  deriving DecidableEq

/-- The row `get_state` inserts when a guild has no state yet. -/
def default_state : CountState :=
  { channel_id := none, last_number := 0, last_user_id := none,
    high_score := 0, high_scorer_id := none }

/-- Validation outcome of one counting-channel message (the spec's
`ValidationOutcome`; the branch of `on_message` that was taken). -/
inductive Outcome where
  | Ignored : Outcome
  | RejectedWrongValue : Int → Outcome
  | RejectedRepeatPoster : Outcome
  | Accepted : Bool → Outcome
  deriving DecidableEq

/-- Python `x or 0` on an integer. -/
def py_or_zero (x : Int) : Int := if x = 0 then 0 else x

/-- `bump_user_count` (services/db.py) on one guild's tally map:
insert-or-zero then increment, i.e. exactly one more for that user. -/
def bump_user_count (tally : Int → Nat) (user : Int) : Int → Nat :=
  fun u => if u = user then tally u + 1 else tally u

/-- The `on_message` listener of the Counting cog, from the bot check to
the final state/tally writes.  Returns the new state, the new tally map,
and the outcome (`none` when the handler ignored the event entirely:
bot author, unset counting channel, or a message in another channel).  Side effects (deletes, notices, reactions) are
ignored failures in the source and carry no state. -/
def on_message_step (uni : Char → Option Nat) (wordx : Char → Bool)
    (st : CountState) (tally : Int → Nat) (extreme : Bool) (m : HMsg) :
    CountState × (Int → Nat) × Option Outcome :=
  if m.bot then (st, tally, none)
  else
    match st.channel_id with
    | none => (st, tally, none)
    | some cid =>
      if cid = 0 then (st, tally, none)
      else if m.channel ≠ cid then (st, tally, none)
      else
        let expected := py_or_zero st.last_number + 1
        match parse_count_message uni wordx m.content expected extreme with
        | none => (st, tally, some Outcome.Ignored)
        | some n =>
          let same_user := st.last_user_id == some m.author
          if n ≠ expected then
            ({ st with last_number := 0, last_user_id := none }, tally,
              some (Outcome.RejectedWrongValue expected))
          else if same_user && !(extreme && is_milestone n) then
            ({ st with last_number := 0, last_user_id := none }, tally,
              some Outcome.RejectedRepeatPoster)
          else
            if st.high_score < n then
              let st2 := { st with last_number := n, last_user_id := some m.author,
                                   high_score := n, high_scorer_id := some m.author }
              (st2, bump_user_count tally m.author, some (Outcome.Accepted true))
            else
              ({ st with last_number := n, last_user_id := some m.author },
               bump_user_count tally m.author, some (Outcome.Accepted false))

/-- The operations that touch a guild's counting state: a channel
message, the admin `setcount` and `resetcount` commands, and a history
resync (`synccount` / `setcountingchannel`, which persist the
reconciler's result). -/
inductive Op where
  | message : Bool → HMsg → Op
  | setcount : Int → Op
  | resetcount : Op
  | sync : Bool → List HMsg → Op

/-- State effect of one operation (tally effects are dropped;
`on_message_step` carries them separately). -/
def apply_op (uni : Char → Option Nat) (wordx : Char → Bool)
    (op : Op) (st : CountState) : CountState :=
  match op with
  | Op.message extreme m => (on_message_step uni wordx st (fun _ => 0) extreme m).1
  | Op.setcount v => { st with last_number := max 0 v, last_user_id := none }
  | Op.resetcount => { st with last_number := 0, last_user_id := none }
  | Op.sync extreme history =>
    let r := backfill_from_history uni wordx extreme history 5000
    { st with last_number := r.1, last_user_id := r.2 }

/-- A sequence of operations applied in order. -/
def apply_ops (uni : Char → Option Nat) (wordx : Char → Bool)
    (ops : List Op) (st : CountState) : CountState :=
  ops.foldl (fun s op => apply_op uni wordx op s) st

/-- Spec-side milestone description (claim C3): one of the five fun
values, or a nonzero digit `d` followed by `k ≥ 4` zeros. -/
def milestone_shape (n : Int) : Prop :=
  (n = 69 ∨ n = 420 ∨ n = 777 ∨ n = 1000 ∨ n = 1337) ∨
    ∃ d k : Nat, 1 ≤ d ∧ d ≤ 9 ∧ 4 ≤ k ∧ n = (d : Int) * (10 : Int) ^ k

/-- Spec-side view of a history for the reconciler: the (value, author)
pairs of the non-bot messages that parse, newest first. -/
def parsed_pairs (uni : Char → Option Nat) (wordx : Char → Bool)
    (extreme : Bool) (ms : List HMsg) : List (Int × Int) :=
  ms.filterMap (fun m =>
    if m.bot then none
    else (parse_count_message uni wordx m.content 0 extreme).map (fun v => (v, m.author)))

/-- Spec-side cursor scan (claim C5): keep walking while each parsed
value matches the cursor, decrementing it; stop at the first mismatch;
return `(max 0 last_number, last_poster)`. -/
def spec_scan : Int → Int → Option Int → List (Int × Int) → Int × Option Int
  | _, ln, lu, [] => (max 0 ln, lu)
  | cursor, ln, lu, (v, _) :: rest =>
    if v = cursor then spec_scan (cursor - 1) ln lu rest
    else (max 0 ln, lu)

/-- Spec-side reconciler (claim C5): the first parseable value seeds the
result and an `expected = value - 1` cursor; `(0, absent)` when nothing
parses. -/
def reconstruct_spec (uni : Char → Option Nat) (wordx : Char → Bool)
    (extreme : Bool) (history : List HMsg) (max_messages : Nat) : Int × Option Int :=
  match parsed_pairs uni wordx extreme (history.take max_messages) with
  | [] => (0, none)
  | (v, a) :: rest => spec_scan (v - 1) v (some a) rest

/-! ### Helper lemmas -/

theorem py_or_zero_eq (x : Int) : py_or_zero x = x := by
  unfold py_or_zero
  split <;> simp_all

/-- `parse_count_message` never reads its `expected` argument. -/
theorem parse_expected_irrel (uni : Char → Option Nat) (wordx : Char → Bool)
    (content : List Char) (e1 e2 : Int) (extreme : Bool) :
    parse_count_message uni wordx content e1 extreme
      = parse_count_message uni wordx content e2 extreme := rfl

/-- Shared helper: a counting-channel message from a non-bot poster
different from `last_poster` that parses exactly to `last_number + 1`
takes the accept branch of `on_message_step`. -/
theorem on_message_accept (uni : Char → Option Nat) (wordx : Char → Bool)
    (st : CountState) (tally : Int → Nat) (extreme : Bool) (m : HMsg)
    (hbot : m.bot = false)
    (hch : st.channel_id = some m.channel) (hch0 : m.channel ≠ 0)
    (hdiff : st.last_user_id ≠ some m.author)
    (hparse : parse_count_message uni wordx m.content (st.last_number + 1) extreme
        = some (st.last_number + 1)) :
    on_message_step uni wordx st tally extreme m =
      if st.high_score < st.last_number + 1 then
        ({ st with last_number := st.last_number + 1, last_user_id := some m.author,
                   high_score := st.last_number + 1, high_scorer_id := some m.author },
         bump_user_count tally m.author, some (Outcome.Accepted true))
      else
        ({ st with last_number := st.last_number + 1, last_user_id := some m.author },
         bump_user_count tally m.author, some (Outcome.Accepted false)) := by
  have hsame : (st.last_user_id == some m.author) = false := beq_eq_false_iff_ne.mpr hdiff
  unfold on_message_step
  rw [hbot, hch]
  simp only [Bool.false_eq_true, if_false, py_or_zero_eq]
  rw [if_neg hch0, if_neg (by simp), hparse]
  simp [hsame]

/-! ### Claims -/

/-- Claim C9: parsing is independent of the expected count — for every
message text, extreme-mode flag, and any two integers `e1`, `e2`, the
parser extracts the same result. -/
theorem C9_parse_ignores_expected (uni : Char → Option Nat) (wordx : Char → Bool)
    (content : List Char) (e1 e2 : Int) (extreme : Bool) :
    parse_count_message uni wordx content e1 extreme
      = parse_count_message uni wordx content e2 extreme :=
  parse_expected_irrel uni wordx content e1 e2 extreme

/-- Claim C1: with `last_number = k ≥ 0`, a counting-channel message from
a non-bot poster different from `last_poster` that parses to `k + 1` is
accepted: `last_number` becomes `k + 1`, `last_poster` becomes the
poster, the poster's tally grows by exactly 1 and no other tally
changes, and the high score moves to `k + 1` with the poster as scorer
(flagging a new high) exactly when `k + 1 > high_score`. -/
theorem C1_accept_next_number (uni : Char → Option Nat) (wordx : Char → Bool)
    (st : CountState) (tally : Int → Nat) (extreme : Bool) (m : HMsg) (k : Int)
    (hk : st.last_number = k) (hk0 : 0 ≤ k)
    (hbot : m.bot = false)
    (hch : st.channel_id = some m.channel) (hch0 : m.channel ≠ 0)
    (hdiff : st.last_user_id ≠ some m.author)
    (hparse : parse_count_message uni wordx m.content (k + 1) extreme = some (k + 1)) :
    (on_message_step uni wordx st tally extreme m).1.last_number = k + 1
    ∧ (on_message_step uni wordx st tally extreme m).1.last_user_id = some m.author
    ∧ (on_message_step uni wordx st tally extreme m).2.1 m.author = tally m.author + 1
    ∧ (∀ q, q ≠ m.author → (on_message_step uni wordx st tally extreme m).2.1 q = tally q)
    ∧ (st.high_score < k + 1 →
        (on_message_step uni wordx st tally extreme m).2.2 = some (Outcome.Accepted true)
        ∧ (on_message_step uni wordx st tally extreme m).1.high_score = k + 1
        ∧ (on_message_step uni wordx st tally extreme m).1.high_scorer_id = some m.author)
    ∧ (¬ st.high_score < k + 1 →
        (on_message_step uni wordx st tally extreme m).2.2 = some (Outcome.Accepted false)
        ∧ (on_message_step uni wordx st tally extreme m).1.high_score = st.high_score
        ∧ (on_message_step uni wordx st tally extreme m).1.high_scorer_id = st.high_scorer_id) := by
  subst hk
  have hstep := on_message_accept uni wordx st tally extreme m hbot hch hch0 hdiff hparse
  rw [hstep]
  by_cases hhs : st.high_score < st.last_number + 1
  · rw [if_pos hhs]
    exact ⟨rfl, rfl, by simp [bump_user_count], fun q hq => by simp [bump_user_count, hq],
           fun _ => ⟨rfl, rfl, rfl⟩, fun h => absurd hhs h⟩
  · rw [if_neg hhs]
    exact ⟨rfl, rfl, by simp [bump_user_count], fun q hq => by simp [bump_user_count, hq],
           fun h => absurd h hhs, fun _ => ⟨rfl, rfl, rfl⟩⟩

example :
    (on_message_step uni0 wordx0
      { channel_id := some 5, last_number := 41, last_user_id := some 1,
        high_score := 50, high_scorer_id := some 2 } (fun _ => 0) false
      { bot := false, author := 7, channel := 5, content := "42".toList }).2.2
      = some (Outcome.Accepted false) := by decide

example :
    (on_message_step uni0 wordx0
      { channel_id := some 5, last_number := 41, last_user_id := some 1,
        high_score := 50, high_scorer_id := some 2 } (fun _ => 0) false
      { bot := false, author := 7, channel := 5, content := "42".toList }).1
      = { channel_id := some 5, last_number := 42, last_user_id := some 7,
          high_score := 50, high_scorer_id := some 2 } := by decide

/-- Concrete state used by the C1 witness. -/
def stC1 : CountState :=
  { channel_id := some 5, last_number := 41, last_user_id := some 1,
    high_score := 50, high_scorer_id := some 2 }

/-- Concrete message used by the C1 witness. -/
def mC1 : HMsg := { bot := false, author := 7, channel := 5, content := "42".toList }

/-- Witness for claim C1 at a concrete state and message. -/
theorem C1_accept_next_number_witness :
    (on_message_step uni0 wordx0 stC1 (fun _ => 0) false mC1).1.last_number = 41 + 1
    ∧ (on_message_step uni0 wordx0 stC1 (fun _ => 0) false mC1).1.last_user_id = some mC1.author
    ∧ (on_message_step uni0 wordx0 stC1 (fun _ => 0) false mC1).2.1 mC1.author
        = (fun (_ : Int) => 0) mC1.author + 1
    ∧ (∀ q, q ≠ mC1.author →
        (on_message_step uni0 wordx0 stC1 (fun _ => 0) false mC1).2.1 q = (fun (_ : Int) => 0) q)
    ∧ (stC1.high_score < 41 + 1 →
        (on_message_step uni0 wordx0 stC1 (fun _ => 0) false mC1).2.2
            = some (Outcome.Accepted true)
        ∧ (on_message_step uni0 wordx0 stC1 (fun _ => 0) false mC1).1.high_score = 41 + 1
        ∧ (on_message_step uni0 wordx0 stC1 (fun _ => 0) false mC1).1.high_scorer_id
            = some mC1.author)
    ∧ (¬ stC1.high_score < 41 + 1 →
        (on_message_step uni0 wordx0 stC1 (fun _ => 0) false mC1).2.2
            = some (Outcome.Accepted false)
        ∧ (on_message_step uni0 wordx0 stC1 (fun _ => 0) false mC1).1.high_score
            = stC1.high_score
        ∧ (on_message_step uni0 wordx0 stC1 (fun _ => 0) false mC1).1.high_scorer_id
            = stC1.high_scorer_id) :=
  C1_accept_next_number uni0 wordx0 stC1 (fun _ => 0) false mC1 41
    rfl (by decide) rfl rfl (by decide) (by decide) (by decide)

/-- Claim C2: any counting-channel message parsing to a value other than
`last_number + 1` is rejected as a wrong value carrying the expected
value, and the state resets (`last_number = 0`, poster cleared) with the
high score and scorer untouched — for every poster and extreme-mode
setting, milestones included. -/
theorem C2_wrong_value_resets (uni : Char → Option Nat) (wordx : Char → Bool)
    (st : CountState) (tally : Int → Nat) (extreme : Bool) (m : HMsg) (v : Int)
    (hbot : m.bot = false)
    (hch : st.channel_id = some m.channel) (hch0 : m.channel ≠ 0)
    (hparse : parse_count_message uni wordx m.content (st.last_number + 1) extreme = some v)
    (hv : v ≠ st.last_number + 1) :
    (on_message_step uni wordx st tally extreme m).2.2
        = some (Outcome.RejectedWrongValue (st.last_number + 1))
    ∧ (on_message_step uni wordx st tally extreme m).1.last_number = 0
    ∧ (on_message_step uni wordx st tally extreme m).1.last_user_id = none
    ∧ (on_message_step uni wordx st tally extreme m).1.high_score = st.high_score
    ∧ (on_message_step uni wordx st tally extreme m).1.high_scorer_id = st.high_scorer_id
    ∧ (on_message_step uni wordx st tally extreme m).2.1 = tally := by
  have hstep : on_message_step uni wordx st tally extreme m =
      ({ st with last_number := 0, last_user_id := none }, tally,
        some (Outcome.RejectedWrongValue (st.last_number + 1))) := by
    unfold on_message_step
    rw [hbot, hch]
    simp only [Bool.false_eq_true, if_false, py_or_zero_eq]
    rw [if_neg hch0, if_neg (by simp), hparse]
    dsimp only
    rw [if_pos hv]
  rw [hstep]
  exact ⟨rfl, rfl, rfl, rfl, rfl, rfl⟩

/-- Concrete state used by the C2 witness. -/
def stC2 : CountState :=
  { channel_id := some 5, last_number := 5, last_user_id := some 1,
    high_score := 10, high_scorer_id := some 1 }

/-- Concrete message used by the C2 witness: a milestone value (69) sent
in extreme mode, still rejected because it is not the expected 6. -/
def mC2 : HMsg := { bot := false, author := 1, channel := 5, content := "69".toList }

/-- Witness for claim C2 at a concrete state and message. -/
theorem C2_wrong_value_resets_witness :
    (on_message_step uni0 wordx0 stC2 (fun _ => 0) true mC2).2.2
        = some (Outcome.RejectedWrongValue (stC2.last_number + 1))
    ∧ (on_message_step uni0 wordx0 stC2 (fun _ => 0) true mC2).1.last_number = 0
    ∧ (on_message_step uni0 wordx0 stC2 (fun _ => 0) true mC2).1.last_user_id = none
    ∧ (on_message_step uni0 wordx0 stC2 (fun _ => 0) true mC2).1.high_score = stC2.high_score
    ∧ (on_message_step uni0 wordx0 stC2 (fun _ => 0) true mC2).1.high_scorer_id
        = stC2.high_scorer_id
    ∧ (on_message_step uni0 wordx0 stC2 (fun _ => 0) true mC2).2.1 = (fun _ => 0) :=
  C2_wrong_value_resets uni0 wordx0 stC2 (fun _ => 0) true mC2 69
    rfl rfl (by decide) (by decide) (by decide)

/-- Claim C10: after a reset (`last_number = 0`, `last_poster` absent) a
message parsing to 1 from any non-bot poster — including the poster whose
wrong message caused the reset — is accepted, because an absent
`last_poster` compares unequal to every poster identity. -/
theorem C10_reset_allows_same_poster (uni : Char → Option Nat) (wordx : Char → Bool)
    (st : CountState) (tally : Int → Nat) (extreme : Bool) (m : HMsg)
    (hbot : m.bot = false)
    (hch : st.channel_id = some m.channel) (hch0 : m.channel ≠ 0)
    (hlp : st.last_user_id = none) (hln : st.last_number = 0)
    (hparse : parse_count_message uni wordx m.content 1 extreme = some 1) :
    (on_message_step uni wordx st tally extreme m).1.last_number = 1
    ∧ (on_message_step uni wordx st tally extreme m).1.last_user_id = some m.author
    ∧ (st.high_score < 1 →
        (on_message_step uni wordx st tally extreme m).2.2 = some (Outcome.Accepted true))
    ∧ (¬ st.high_score < 1 →
        (on_message_step uni wordx st tally extreme m).2.2 = some (Outcome.Accepted false)) := by
  have hdiff : st.last_user_id ≠ some m.author := by
    rw [hlp]
    exact fun h => Option.noConfusion h
  have hparse2 : parse_count_message uni wordx m.content (st.last_number + 1) extreme
      = some (st.last_number + 1) := by
    rw [hln, zero_add]
    exact hparse
  have hstep := on_message_accept uni wordx st tally extreme m hbot hch hch0 hdiff hparse2
  rw [hstep, hln]
  simp only [zero_add]
  by_cases hhs : st.high_score < 1
  · rw [if_pos hhs]
    exact ⟨rfl, rfl, fun _ => rfl, fun h => absurd hhs h⟩
  · rw [if_neg hhs]
    exact ⟨rfl, rfl, fun h => absurd h hhs, fun _ => rfl⟩

/-- Concrete state used by the C10 witness: freshly reset, nonzero high
score kept from before the reset. -/
def stC10 : CountState :=
  { channel_id := some 5, last_number := 0, last_user_id := none,
    high_score := 3, high_scorer_id := some 2 }

/-- Concrete message used by the C10 witness. -/
def mC10 : HMsg := { bot := false, author := 9, channel := 5, content := "1".toList }

/-- Witness for claim C10 at a concrete state and message. -/
theorem C10_reset_allows_same_poster_witness :
    (on_message_step uni0 wordx0 stC10 (fun _ => 0) false mC10).1.last_number = 1
    ∧ (on_message_step uni0 wordx0 stC10 (fun _ => 0) false mC10).1.last_user_id
        = some mC10.author
    ∧ (stC10.high_score < 1 →
        (on_message_step uni0 wordx0 stC10 (fun _ => 0) false mC10).2.2
            = some (Outcome.Accepted true))
    ∧ (¬ stC10.high_score < 1 →
        (on_message_step uni0 wordx0 stC10 (fun _ => 0) false mC10).2.2
            = some (Outcome.Accepted false)) :=
  C10_reset_allows_same_poster uni0 wordx0 stC10 (fun _ => 0) false mC10
    rfl rfl (by decide) rfl rfl (by decide)

/-- Helper: the listener never lowers the high score. -/
theorem on_message_high_mono (uni : Char → Option Nat) (wordx : Char → Bool)
    (st : CountState) (tally : Int → Nat) (extreme : Bool) (m : HMsg) :
    st.high_score ≤ (on_message_step uni wordx st tally extreme m).1.high_score := by
  unfold on_message_step
  split
  · exact le_refl _
  · cases hc : st.channel_id with
    | none => exact le_refl _
    | some cid =>
      dsimp only
      split
      · exact le_refl _
      · split
        · exact le_refl _
        · cases hp : parse_count_message uni wordx m.content (py_or_zero st.last_number + 1)
              extreme with
          | none => exact le_refl _
          | some n =>
            dsimp only
            split
            · exact le_refl _
            · split
              · exact le_refl _
              · split
                · next h => exact le_of_lt h
                · exact le_refl _

/-- Helper: the listener keeps `last_number` non-negative. -/
theorem on_message_last_nonneg (uni : Char → Option Nat) (wordx : Char → Bool)
    (st : CountState) (tally : Int → Nat) (extreme : Bool) (m : HMsg)
    (h : 0 ≤ st.last_number) :
    0 ≤ (on_message_step uni wordx st tally extreme m).1.last_number := by
  unfold on_message_step
  simp only [py_or_zero_eq]
  split
  · exact h
  · cases hc : st.channel_id with
    | none => exact h
    | some cid =>
      dsimp only
      split
      · exact h
      · split
        · exact h
        · cases hp : parse_count_message uni wordx m.content (st.last_number + 1) extreme with
          | none => exact h
          | some n =>
            dsimp only
            split
            · exact Int.le_refl 0
            · next hne =>
              have hn : n = st.last_number + 1 := not_ne_iff.mp hne
              split
              · exact Int.le_refl 0
              · split
                · show 0 ≤ n
                  omega
                · show 0 ≤ n
                  omega

/-- Helper: the reconciler's returned count is non-negative. -/
theorem backfill_nonneg (uni : Char → Option Nat) (wordx : Char → Bool)
    (extreme : Bool) (history : List HMsg) (max_messages : Nat) :
    0 ≤ (backfill_from_history uni wordx extreme history max_messages).1 := by
  unfold backfill_from_history
  exact le_max_left 0 _

/-- Helper: no single operation lowers the high score. -/
theorem apply_op_high_mono (uni : Char → Option Nat) (wordx : Char → Bool)
    (op : Op) (st : CountState) :
    st.high_score ≤ (apply_op uni wordx op st).high_score := by
  cases op with
  | message extreme m => exact on_message_high_mono uni wordx st (fun _ => 0) extreme m
  | setcount v => exact le_refl _
  | resetcount => exact le_refl _
  | sync extreme history => exact le_refl _

/-- Helper: no single operation makes `last_number` negative. -/
theorem apply_op_last_nonneg (uni : Char → Option Nat) (wordx : Char → Bool)
    (op : Op) (st : CountState) (h : 0 ≤ st.last_number) :
    0 ≤ (apply_op uni wordx op st).last_number := by
  cases op with
  | message extreme m => exact on_message_last_nonneg uni wordx st (fun _ => 0) extreme m h
  | setcount v => exact le_max_left 0 v
  | resetcount => exact le_refl 0
  | sync extreme history => exact backfill_nonneg uni wordx extreme history 5000

/-- Claim C4: `high_score` never decreases across any sequence of
operations on a guild's counting state — accepted messages, rejections,
admin `setcount`, admin `resetcount`, and history resyncs. -/
theorem C4_high_score_monotone (uni : Char → Option Nat) (wordx : Char → Bool)
    (ops : List Op) (st : CountState) :
    st.high_score ≤ (apply_ops uni wordx ops st).high_score := by
  induction ops generalizing st with
  | nil => exact le_refl _
  | cons op rest ih =>
    exact le_trans (apply_op_high_mono uni wordx op st) (ih (apply_op uni wordx op st))

/-- Claim C8: `last_number` is non-negative in every reachable state —
the default row stores 0 and every operation (message handling, admin
`setcount` which clamps at 0, `resetcount`, and the reconciler which
returns `max 0 _`) preserves non-negativity. -/
theorem C8_last_number_nonneg (uni : Char → Option Nat) (wordx : Char → Bool) :
    default_state.last_number = 0
    ∧ (∀ (op : Op) (st : CountState), 0 ≤ st.last_number →
        0 ≤ (apply_op uni wordx op st).last_number)
    ∧ (∀ ops : List Op, 0 ≤ (apply_ops uni wordx ops default_state).last_number) := by
  refine ⟨rfl, fun op st h => apply_op_last_nonneg uni wordx op st h, fun ops => ?_⟩
  have hgen : ∀ (l : List Op) (st : CountState), 0 ≤ st.last_number →
      0 ≤ (apply_ops uni wordx l st).last_number := by
    intro l
    induction l with
    | nil => exact fun st h => h
    | cons op rest ih =>
      exact fun st h => ih (apply_op uni wordx op st) (apply_op_last_nonneg uni wordx op st h)
  exact hgen ops default_state (by decide)

/-- Witness for claim C8: the preservation step applied to a concrete
negative `setcount` request on a concrete state. -/
theorem C8_last_number_nonneg_witness :
    default_state.last_number = 0
    ∧ 0 ≤ (apply_op uni0 wordx0 (Op.setcount (-5)) stC1).last_number :=
  ⟨(C8_last_number_nonneg uni0 wordx0).1,
    (C8_last_number_nonneg uni0 wordx0).2.1 (Op.setcount (-5)) stC1 (by decide)⟩

/-- Unfolding of one reconciler loop step (stated with the expected
argument at 0, which the parser ignores). -/
theorem backfill_loop_cons (uni : Char → Option Nat) (wordx : Char → Bool) (extreme : Bool)
    (m : HMsg) (rest : List HMsg) (ln : Int) (lu : Option Int) (exp? : Option Int) :
    backfill_loop uni wordx extreme (m :: rest) ln lu exp? =
      if m.bot then backfill_loop uni wordx extreme rest ln lu exp?
      else
        match parse_count_message uni wordx m.content 0 extreme with
        | none => backfill_loop uni wordx extreme rest ln lu exp?
        | some val =>
          match exp? with
          | none => backfill_loop uni wordx extreme rest val (some m.author) (some (val - 1))
          | some e =>
            if val = e then backfill_loop uni wordx extreme rest ln lu (some (e - 1))
            else (ln, lu) := rfl

/-- Unfolding of one step of the spec-side parsed-pair view. -/
theorem parsed_pairs_cons (uni : Char → Option Nat) (wordx : Char → Bool) (extreme : Bool)
    (m : HMsg) (rest : List HMsg) :
    parsed_pairs uni wordx extreme (m :: rest) =
      if m.bot then parsed_pairs uni wordx extreme rest
      else
        match parse_count_message uni wordx m.content 0 extreme with
        | none => parsed_pairs uni wordx extreme rest
        | some v => (v, m.author) :: parsed_pairs uni wordx extreme rest := by
  unfold parsed_pairs
  rw [List.filterMap_cons]
  by_cases hb : m.bot
  · simp [hb]
  · cases hp : parse_count_message uni wordx m.content 0 extreme <;> simp [hb, hp]

/-- After the first parseable value has seeded the loop, the reconciler
loop agrees with the spec-side cursor scan. -/
theorem backfill_loop_some (uni : Char → Option Nat) (wordx : Char → Bool) (extreme : Bool)
    (ms : List HMsg) :
    ∀ (ln : Int) (lu : Option Int) (c : Int),
      (max 0 (backfill_loop uni wordx extreme ms ln lu (some c)).1,
       (backfill_loop uni wordx extreme ms ln lu (some c)).2)
        = spec_scan c ln lu (parsed_pairs uni wordx extreme ms) := by
  induction ms with
  | nil => intro ln lu c; rfl
  | cons m rest ih =>
    intro ln lu c
    rw [backfill_loop_cons, parsed_pairs_cons]
    by_cases hb : m.bot
    · rw [if_pos hb, if_pos hb]
      exact ih ln lu c
    · rw [if_neg hb, if_neg hb]
      cases hp : parse_count_message uni wordx m.content 0 extreme with
      | none => exact ih ln lu c
      | some val =>
        dsimp only
        by_cases hv : val = c
        · rw [if_pos hv]
          show _ = spec_scan c ln lu ((val, m.author) :: parsed_pairs uni wordx extreme rest)
          unfold spec_scan
          rw [if_pos hv]
          exact ih ln lu (c - 1)
        · rw [if_neg hv]
          show _ = spec_scan c ln lu ((val, m.author) :: parsed_pairs uni wordx extreme rest)
          unfold spec_scan
          rw [if_neg hv]

/-- Before the seed, the reconciler loop agrees with the spec-side
description: the first parseable pair seeds last number, poster, and a
`value - 1` cursor. -/
theorem backfill_loop_none (uni : Char → Option Nat) (wordx : Char → Bool) (extreme : Bool)
    (ms : List HMsg) :
    ∀ (ln : Int) (lu : Option Int),
      (max 0 (backfill_loop uni wordx extreme ms ln lu none).1,
       (backfill_loop uni wordx extreme ms ln lu none).2)
        = match parsed_pairs uni wordx extreme ms with
          | [] => (max 0 ln, lu)
          | (v, a) :: rest => spec_scan (v - 1) v (some a) rest := by
  induction ms with
  | nil => intro ln lu; rfl
  | cons m rest ih =>
    intro ln lu
    rw [backfill_loop_cons, parsed_pairs_cons]
    by_cases hb : m.bot
    · rw [if_pos hb, if_pos hb]
      exact ih ln lu
    · rw [if_neg hb, if_neg hb]
      cases hp : parse_count_message uni wordx m.content 0 extreme with
      | none => exact ih ln lu
      | some val =>
        dsimp only
        exact backfill_loop_some uni wordx extreme rest val (some m.author) (val - 1)

/-- Claim C5: the reconciler is exactly the spec-side description — walk
the bot-and-unparseable-filtered history newest first, seed from the
first parseable (value, author) with an `expected = value - 1` cursor,
continue while each subsequent value matches the decremented cursor,
stop at the first mismatch, and return `(max 0 last_number, last_poster)`
(`(0, absent)` when nothing parses). -/
theorem C5_backfill_eq_reconstruct (uni : Char → Option Nat) (wordx : Char → Bool)
    (extreme : Bool) (history : List HMsg) (max_messages : Nat) :
    backfill_from_history uni wordx extreme history max_messages
      = reconstruct_spec uni wordx extreme history max_messages := by
  unfold backfill_from_history reconstruct_spec
  dsimp only
  rw [backfill_loop_none uni wordx extreme (history.take max_messages) 0 none]
  cases hpp : parsed_pairs uni wordx extreme (history.take max_messages) with
  | nil => simp
  | cons p rest =>
    cases p
    rfl

/-- The fuel-based digit list agrees with `Nat.digits 10`. -/
theorem to_digits_aux_eq : ∀ (fuel n : Nat), n ≤ fuel → to_digits_aux fuel n = Nat.digits 10 n := by
  intro fuel
  induction fuel with
  | zero =>
    intro n hn
    have : n = 0 := Nat.le_zero.mp hn
    subst this
    simp [to_digits_aux]
  | succ f ih =>
    intro n hn
    cases n with
    | zero => simp [to_digits_aux]
    | succ m =>
      rw [show to_digits_aux (f + 1) (m + 1)
            = ((m + 1) % 10) :: to_digits_aux f ((m + 1) / 10) from rfl]
      rw [ih ((m + 1) / 10) (by
        have := Nat.div_lt_self (Nat.succ_pos m) (by norm_num : 1 < 10)
        omega)]
      rw [Nat.digits_def' (by norm_num : (1 : Nat) < 10) (Nat.succ_pos m)]

/-- `nat_digits` agrees with `Nat.digits 10`. -/
theorem nat_digits_eq (n : Nat) : nat_digits n = Nat.digits 10 n :=
  to_digits_aux_eq n n (le_refl n)

/-- Decimal digits of `d * 10 ^ k` for a single nonzero digit `d`:
`k` zeros then `d` (least significant first). -/
theorem digits_pow10 (d : Nat) (h1 : 1 ≤ d) (h9 : d ≤ 9) :
    ∀ k, Nat.digits 10 (d * 10 ^ k) = List.replicate k 0 ++ [d] := by
  intro k
  induction k with
  | zero =>
    rw [show d * 10 ^ 0 = d by ring]
    rw [Nat.digits_of_lt 10 d (by omega) (by omega)]
    rfl
  | succ k ih =>
    have h10 : d * 10 ^ (k + 1) = d * 10 ^ k * 10 := by ring
    rw [Nat.digits_def' (by norm_num : (1 : Nat) < 10) (by positivity)]
    have hmod : d * 10 ^ (k + 1) % 10 = 0 := by
      rw [h10]
      exact Nat.mul_mod_left _ _
    have hdiv : d * 10 ^ (k + 1) / 10 = d * 10 ^ k := by
      rw [h10]
      exact Nat.mul_div_cancel _ (by norm_num)
    rw [hmod, hdiv, ih]
    rfl

/-- Value of the digit list consisting of `k` zeros then `d`. -/
theorem ofDigits_rep0 (d : Nat) : ∀ k, Nat.ofDigits 10 (List.replicate k 0 ++ [d]) = 10 ^ k * d := by
  intro k
  induction k with
  | zero => simp [Nat.ofDigits_singleton]
  | succ k ih =>
    rw [List.replicate_succ, List.cons_append, Nat.ofDigits_cons, ih]
    ring

/-- For a digit value below 10, `Nat.digitChar` yields `'0'` exactly on 0. -/
theorem digitChar_eq_zero (d : Nat) (hd : d < 10) : Nat.digitChar d = '0' ↔ d = 0 := by
  interval_cases d <;> simp [Nat.digitChar]

/-- For a digit value below 10, membership of its character in
`"123456789"` is exactly `1 ≤ d ≤ 9`. -/
theorem digitChar_mem_nonzero (d : Nat) (hd : d < 10) :
    "123456789".toList.contains (Nat.digitChar d) = true ↔ 1 ≤ d ∧ d ≤ 9 := by
  interval_cases d <;> simp [Nat.digitChar]

/-- `is_milestone` holds exactly on the spec's milestone shape. -/
theorem is_milestone_iff (n : Int) : is_milestone n = true ↔ milestone_shape n := by
  unfold is_milestone milestone_shape
  rw [Bool.or_eq_true]
  constructor
  · rintro (hlist | hpow)
    · left
      simpa [MILESTONES] using hlist
    · right
      unfold _is_power10_milestone at hpow
      by_cases hn : n ≤ 0
      · rw [if_pos hn] at hpow
        exact absurd hpow (by simp)
      · rw [if_neg hn] at hpow
        push_neg at hn
        have hnt : n.toNat ≠ 0 := by omega
        unfold str_of_nat at hpow
        rw [if_neg hnt, nat_digits_eq] at hpow
        have hmem : ∀ x ∈ Nat.digits 10 n.toNat, x < 10 :=
          fun x hx => Nat.digits_lt_base (by norm_num) hx
        cases hLr : (Nat.digits 10 n.toNat).reverse with
        | nil =>
          exact absurd (List.reverse_eq_nil_iff.mp hLr)
            (Nat.digits_ne_nil_iff_ne_zero.mpr hnt)
        | cons d0 ds =>
          have hmapr : ((Nat.digits 10 n.toNat).map Nat.digitChar).reverse
              = Nat.digitChar d0 :: ds.map Nat.digitChar := by
            rw [← List.map_reverse, hLr, List.map_cons]
          rw [hmapr] at hpow
          simp only [Bool.and_eq_true] at hpow
          obtain ⟨⟨hc, hne, hall⟩, hlen⟩ := hpow
          have hd0 : d0 < 10 := by
            refine hmem d0 ?_
            rw [← List.mem_reverse, hLr]
            exact List.mem_cons_self d0 ds
          have hd0r : 1 ≤ d0 ∧ d0 ≤ 9 := (digitChar_mem_nonzero d0 hd0).mp hc
          have hds : ∀ x ∈ ds, x = 0 := by
            intro x hx
            have hx10 : x < 10 := by
              refine hmem x ?_
              rw [← List.mem_reverse, hLr]
              exact List.mem_cons_of_mem d0 hx
            have hx0 : Nat.digitChar x == '0' :=
              List.all_eq_true.mp hall (Nat.digitChar x) (List.mem_map_of_mem _ hx)
            exact (digitChar_eq_zero x hx10).mp (by simpa using hx0)
          have hLeq : Nat.digits 10 n.toNat = ds.reverse ++ [d0] := by
            have h2 := congrArg List.reverse hLr
            rw [List.reverse_reverse] at h2
            rw [h2, List.reverse_cons]
          have hdsrep : ds = List.replicate ds.length 0 := List.eq_replicate_of_mem hds
          have hval : n.toNat = 10 ^ ds.length * d0 := by
            conv_lhs => rw [← Nat.ofDigits_digits 10 n.toNat]
            rw [hLeq, hdsrep, List.reverse_replicate, List.length_replicate]
            exact ofDigits_rep0 d0 ds.length
          have hk4 : 4 ≤ ds.length := by
            have h5 := of_decide_eq_true hlen
            rw [List.length_map] at h5
            omega
          refine ⟨d0, ds.length, hd0r.1, hd0r.2, hk4, ?_⟩
          calc n = (n.toNat : Int) := (Int.toNat_of_nonneg (by omega)).symm
            _ = ((10 ^ ds.length * d0 : Nat) : Int) := by rw [hval]
            _ = (d0 : Int) * (10 : Int) ^ ds.length := by push_cast; ring
  · rintro (hlist | ⟨d, k, h1, h9, hk, rfl⟩)
    · left
      rcases hlist with h | h | h | h | h <;> subst h <;> decide
    · right
      unfold _is_power10_milestone
      have hdpos : (0 : Int) < (d : Int) * (10 : Int) ^ k := by positivity
      rw [if_neg (by omega)]
      have htn : ((d : Int) * (10 : Int) ^ k).toNat = d * 10 ^ k := by
        rw [show (d : Int) * (10 : Int) ^ k = ((d * 10 ^ k : Nat) : Int) by push_cast; ring]
        exact Int.toNat_natCast _
      rw [htn]
      unfold str_of_nat
      rw [if_neg (by positivity), nat_digits_eq, digits_pow10 d h1 h9 k]
      rw [List.map_append, List.map_replicate, List.reverse_append, List.reverse_replicate]
      simp only [List.map_cons, List.map_nil, List.reverse_cons, List.reverse_nil,
        List.nil_append, List.cons_append, List.singleton_append]
      rw [Bool.and_eq_true, Bool.and_eq_true, Bool.and_eq_true]
      refine ⟨⟨(digitChar_mem_nonzero d (by omega)).mpr ⟨h1, h9⟩, ?_, ?_⟩, ?_⟩
      · simp [List.replicate_eq_nil_iff]
        omega
      · rw [List.all_eq_true]
        intro x hx
        rw [List.eq_of_mem_replicate hx]
        rfl
      · rw [List.length_replicate]
        exact decide_eq_true (by omega)

/-- Claim C3: a message from the same poster as `last_poster` parsing
exactly to `last_number + 1` is rejected as a repeat poster with the
usual reset — unless extreme mode is on and the value is a milestone
(one of 69, 420, 777, 1000, 1337, or a nonzero digit followed by at
least four zeros), in which case it is accepted despite the repeat. -/
theorem C3_repeat_poster_milestone (uni : Char → Option Nat) (wordx : Char → Bool)
    (st : CountState) (tally : Int → Nat) (extreme : Bool) (m : HMsg)
    (hbot : m.bot = false)
    (hch : st.channel_id = some m.channel) (hch0 : m.channel ≠ 0)
    (hsame : st.last_user_id = some m.author)
    (hparse : parse_count_message uni wordx m.content (st.last_number + 1) extreme
        = some (st.last_number + 1)) :
    (¬ (extreme = true ∧ milestone_shape (st.last_number + 1)) →
        (on_message_step uni wordx st tally extreme m).2.2 = some Outcome.RejectedRepeatPoster
        ∧ (on_message_step uni wordx st tally extreme m).1.last_number = 0
        ∧ (on_message_step uni wordx st tally extreme m).1.last_user_id = none
        ∧ (on_message_step uni wordx st tally extreme m).1.high_score = st.high_score)
    ∧ (extreme = true ∧ milestone_shape (st.last_number + 1) →
        (on_message_step uni wordx st tally extreme m).1.last_number = st.last_number + 1
        ∧ (on_message_step uni wordx st tally extreme m).1.last_user_id = some m.author
        ∧ (st.high_score < st.last_number + 1 →
            (on_message_step uni wordx st tally extreme m).2.2 = some (Outcome.Accepted true))
        ∧ (¬ st.high_score < st.last_number + 1 →
            (on_message_step uni wordx st tally extreme m).2.2
              = some (Outcome.Accepted false))) := by
  have hsameb : (st.last_user_id == some m.author) = true := beq_iff_eq.mpr hsame
  constructor
  · intro hnot
    have hx : (extreme && is_milestone (st.last_number + 1)) = false := by
      by_cases he : extreme = true
      · have hm : is_milestone (st.last_number + 1) = false := by
          by_contra hmt
          exact hnot ⟨he, (is_milestone_iff _).mp (Bool.not_eq_false _ ▸ hmt)⟩
        rw [he, hm]
        rfl
      · rw [Bool.not_eq_true] at he
        rw [he]
        rfl
    have hstep : on_message_step uni wordx st tally extreme m =
        ({ st with last_number := 0, last_user_id := none }, tally,
          some Outcome.RejectedRepeatPoster) := by
      unfold on_message_step
      rw [hbot, hch]
      simp only [Bool.false_eq_true, if_false, py_or_zero_eq]
      rw [if_neg hch0, if_neg (by simp), hparse]
      dsimp only
      rw [if_neg (by simp)]
      simp only [hsameb, hx, Bool.true_and, Bool.not_false, if_true]
    rw [hstep]
    exact ⟨rfl, rfl, rfl, rfl⟩
  · rintro ⟨he, hshape⟩
    have hx : (extreme && is_milestone (st.last_number + 1)) = true := by
      rw [he, (is_milestone_iff _).mpr hshape]
      rfl
    have hstep : on_message_step uni wordx st tally extreme m =
        if st.high_score < st.last_number + 1 then
          ({ st with last_number := st.last_number + 1, last_user_id := some m.author,
                     high_score := st.last_number + 1, high_scorer_id := some m.author },
           bump_user_count tally m.author, some (Outcome.Accepted true))
        else
          ({ st with last_number := st.last_number + 1, last_user_id := some m.author },
           bump_user_count tally m.author, some (Outcome.Accepted false)) := by
      unfold on_message_step
      rw [hbot, hch]
      simp only [Bool.false_eq_true, if_false, py_or_zero_eq]
      rw [if_neg hch0, if_neg (by simp), hparse]
      dsimp only
      rw [if_neg (by simp)]
      simp only [hsameb, hx, Bool.true_and, Bool.not_true, Bool.false_eq_true, if_false]
    rw [hstep]
    by_cases hhs : st.high_score < st.last_number + 1
    · rw [if_pos hhs]
      exact ⟨rfl, rfl, fun _ => rfl, fun h => absurd hhs h⟩
    · rw [if_neg hhs]
      exact ⟨rfl, rfl, fun h => absurd h hhs, fun _ => rfl⟩

/-- Concrete state used by the C3 witness. -/
def stC3 : CountState :=
  { channel_id := some 5, last_number := 1336, last_user_id := some 7,
    high_score := 2000, high_scorer_id := some 2 }

/-- Concrete message used by the C3 witness: the milestone 1337 sent by
the previous poster in extreme mode. -/
def mC3 : HMsg := { bot := false, author := 7, channel := 5, content := "1337".toList }

/-- Witness for claim C3 at a concrete state and message. -/
theorem C3_repeat_poster_milestone_witness :
    (¬ (true = true ∧ milestone_shape (stC3.last_number + 1)) →
        (on_message_step uni0 wordx0 stC3 (fun _ => 0) true mC3).2.2
            = some Outcome.RejectedRepeatPoster
        ∧ (on_message_step uni0 wordx0 stC3 (fun _ => 0) true mC3).1.last_number = 0
        ∧ (on_message_step uni0 wordx0 stC3 (fun _ => 0) true mC3).1.last_user_id = none
        ∧ (on_message_step uni0 wordx0 stC3 (fun _ => 0) true mC3).1.high_score
            = stC3.high_score)
    ∧ (true = true ∧ milestone_shape (stC3.last_number + 1) →
        (on_message_step uni0 wordx0 stC3 (fun _ => 0) true mC3).1.last_number
            = stC3.last_number + 1
        ∧ (on_message_step uni0 wordx0 stC3 (fun _ => 0) true mC3).1.last_user_id
            = some mC3.author
        ∧ (stC3.high_score < stC3.last_number + 1 →
            (on_message_step uni0 wordx0 stC3 (fun _ => 0) true mC3).2.2
                = some (Outcome.Accepted true))
        ∧ (¬ stC3.high_score < stC3.last_number + 1 →
            (on_message_step uni0 wordx0 stC3 (fun _ => 0) true mC3).2.2
                = some (Outcome.Accepted false))) :=
  C3_repeat_poster_milestone uni0 wordx0 stC3 (fun _ => 0) true mC3
    rfl rfl (by decide) rfl (by decide)

/-- Concatenated images of a chunk-list function. -/
def concat_map (f : List Char → List (List Char)) : List (List Char) → List (List Char)
  | [] => []
  | t :: ts => f t ++ concat_map f ts

theorem split_runs_aux_nil (p : Char → Bool) (cur : List Char) :
    split_runs_aux p cur [] = if cur.isEmpty then [] else [cur.reverse] := rfl

theorem split_runs_aux_cons (p : Char → Bool) (cur : List Char) (c : Char) (rest : List Char) :
    split_runs_aux p cur (c :: rest) =
      if p c then split_runs_aux p (c :: cur) rest
      else if cur.isEmpty then split_runs_aux p [] rest
      else cur.reverse :: split_runs_aux p [] rest := rfl

/-- Runs are determined by the predicate's values on the string. -/
theorem split_runs_aux_congr (p q : Char → Bool) :
    ∀ (s : List Char) (cur : List Char), (∀ c ∈ s, p c = q c) →
      split_runs_aux p cur s = split_runs_aux q cur s := by
  intro s
  induction s with
  | nil => intro cur h; rfl
  | cons c rest ih =>
    intro cur h
    rw [split_runs_aux_cons, split_runs_aux_cons, h c (List.mem_cons_self c rest)]
    have ih2 := fun cur => ih cur (fun x hx => h x (List.mem_cons_of_mem c hx))
    split
    · exact ih2 (c :: cur)
    · split
      · exact ih2 []
      · rw [ih2 []]

/-- A separator character splits the run computation. -/
theorem split_runs_aux_append_sep (p : Char → Bool) (hsp : p ' ' = false) :
    ∀ (xs ys cur : List Char),
      split_runs_aux p cur (xs ++ ' ' :: ys)
        = split_runs_aux p cur xs ++ split_runs_aux p [] ys := by
  intro xs
  induction xs with
  | nil =>
    intro ys cur
    rw [List.nil_append, split_runs_aux_cons, hsp, split_runs_aux_nil]
    by_cases hc : cur.isEmpty
    · rw [if_neg Bool.false_ne_true, if_pos hc, if_pos hc, List.nil_append]
    · rw [if_neg Bool.false_ne_true, if_neg hc, if_neg hc, List.singleton_append]
  | cons c rest ih =>
    intro ys cur
    rw [List.cons_append, split_runs_aux_cons, split_runs_aux_cons]
    by_cases hpc : p c = true
    · rw [if_pos hpc, if_pos hpc]
      exact ih ys (c :: cur)
    · rw [if_neg hpc, if_neg hpc]
      by_cases hc : cur.isEmpty
      · rw [if_pos hc, if_pos hc]
        exact ih ys []
      · rw [if_neg hc, if_neg hc, ih ys [], List.cons_append]

/-- Splitting a space-joined token list into runs concatenates the runs
of the tokens. -/
theorem split_runs_join (p : Char → Bool) (hsp : p ' ' = false) :
    ∀ ts : List (List Char),
      split_runs p (join_space ts) = concat_map (split_runs p) ts := by
  intro ts
  induction ts with
  | nil => rfl
  | cons t ts ih =>
    cases ts with
    | nil => simp [join_space, concat_map]
    | cons t2 ts2 =>
      show split_runs p (t ++ ' ' :: join_space (t2 :: ts2)) = _
      unfold split_runs
      rw [split_runs_aux_append_sep p hsp]
      show _ = split_runs p t ++ concat_map (split_runs p) (t2 :: ts2)
      rw [← ih]
      rfl

/-- Dropping empty tokens does not change the concatenated runs. -/
theorem concat_map_filter_empty (f : List Char → List (List Char)) (hf : f [] = []) :
    ∀ ts : List (List Char),
      concat_map f (ts.filter (fun t => !t.isEmpty)) = concat_map f ts := by
  intro ts
  induction ts with
  | nil => rfl
  | cons t ts ih =>
    rw [List.filter_cons]
    by_cases ht : t.isEmpty
    · rw [if_neg (by rw [ht]; exact Bool.false_ne_true)]
      have : t = [] := List.isEmpty_iff.mp ht
      rw [ih, show concat_map f (t :: ts) = f t ++ concat_map f ts from rfl, this, hf,
          List.nil_append]
    · rw [if_pos (by simp [ht])]
      show f t ++ _ = f t ++ _
      rw [ih]

/-- Pointwise-equal chunk functions concatenate equally. -/
theorem concat_map_congr (f g : List Char → List (List Char)) :
    ∀ ts : List (List Char), (∀ t ∈ ts, f t = g t) →
      concat_map f ts = concat_map g ts := by
  intro ts
  induction ts with
  | nil => intro _; rfl
  | cons t ts ih =>
    intro h
    show f t ++ _ = g t ++ _
    rw [h t (List.mem_cons_self t ts), ih (fun x hx => h x (List.mem_cons_of_mem t hx))]

/-- Characters inside the fields of `split_at_pred` never satisfy the
splitting predicate. -/
theorem split_at_pred_chars (p : Char → Bool) :
    ∀ s : List Char,
      (∀ c ∈ (split_at_pred p s).1, p c = false)
      ∧ (∀ t ∈ (split_at_pred p s).2, ∀ c ∈ t, p c = false) := by
  intro s
  induction s with
  | nil => exact ⟨fun c hc => absurd hc (List.not_mem_nil c), fun t ht => absurd ht (List.not_mem_nil t)⟩
  | cons c rest ih =>
    by_cases hpc : p c = true
    · have hsp : split_at_pred p (c :: rest)
          = ([], (split_at_pred p rest).1 :: (split_at_pred p rest).2) := by
        show (let r := split_at_pred p rest;
            if p c then ([], r.1 :: r.2) else (c :: r.1, r.2)) = _
        rw [if_pos hpc]
      rw [hsp]
      refine ⟨fun x hx => absurd hx (List.not_mem_nil x), fun t ht => ?_⟩
      rcases List.mem_cons.mp ht with h1 | h2
      · exact fun x hx => ih.1 x (h1 ▸ hx)
      · exact ih.2 t h2
    · have hpc2 : p c = false := by
        cases hpb : p c
        · rfl
        · exact absurd hpb hpc
      have hsp : split_at_pred p (c :: rest)
          = (c :: (split_at_pred p rest).1, (split_at_pred p rest).2) := by
        show (let r := split_at_pred p rest;
            if p c then ([], r.1 :: r.2) else (c :: r.1, r.2)) = _
        rw [hpc2, if_neg Bool.false_ne_true]
      rw [hsp]
      refine ⟨fun x hx => ?_, ih.2⟩
      rcases List.mem_cons.mp hx with h1 | h2
      · rw [h1]
        exact hpc2
      · exact ih.1 x h2

/-- Reassembling the fields of `split_at_pred` under a keep predicate
that rejects every splitting character recovers the runs of the whole
string. -/
theorem concat_split_at (D K : Char → Bool) (hDK : ∀ c, D c = true → K c = false) :
    ∀ (s cur : List Char),
      split_runs_aux K cur (split_at_pred D s).1
          ++ concat_map (split_runs K) (split_at_pred D s).2
        = split_runs_aux K cur s := by
  intro s
  induction s with
  | nil =>
    intro cur
    show split_runs_aux K cur [] ++ [] = split_runs_aux K cur []
    rw [List.append_nil]
  | cons c rest ih =>
    intro cur
    by_cases hDc : D c = true
    · have hsp : split_at_pred D (c :: rest) =
          ([], (split_at_pred D rest).1 :: (split_at_pred D rest).2) := by
        show (let r := split_at_pred D rest;
          if D c then ([], r.1 :: r.2) else (c :: r.1, r.2)) = _
        rw [if_pos hDc]
      rw [hsp]
      show split_runs_aux K cur []
          ++ (split_runs K (split_at_pred D rest).1
              ++ concat_map (split_runs K) (split_at_pred D rest).2)
        = split_runs_aux K cur (c :: rest)
      rw [show split_runs K (split_at_pred D rest).1
            = split_runs_aux K [] (split_at_pred D rest).1 from rfl, ih []]
      rw [split_runs_aux_nil, split_runs_aux_cons, hDK c hDc]
      by_cases hc : cur.isEmpty
      · rw [if_pos hc, List.nil_append, if_neg Bool.false_ne_true, if_pos hc]
      · rw [if_neg hc, List.singleton_append, if_neg Bool.false_ne_true, if_neg hc]
    · have hDc2 : D c = false := Bool.not_eq_true _ ▸ hDc
      have hsp : split_at_pred D (c :: rest) =
          (c :: (split_at_pred D rest).1, (split_at_pred D rest).2) := by
        show (let r := split_at_pred D rest;
          if D c then ([], r.1 :: r.2) else (c :: r.1, r.2)) = _
        rw [hDc2]
        rfl
      rw [hsp]
      show split_runs_aux K cur (c :: (split_at_pred D rest).1)
          ++ concat_map (split_runs K) (split_at_pred D rest).2
        = split_runs_aux K cur (c :: rest)
      rw [split_runs_aux_cons, split_runs_aux_cons]
      by_cases hKc : K c = true
      · rw [if_pos hKc, if_pos hKc]
        exact ih (c :: cur)
      · rw [if_neg hKc, if_neg hKc]
        by_cases hc : cur.isEmpty
        · rw [if_pos hc, if_pos hc]
          exact ih []
        · rw [if_neg hc, if_neg hc, List.cons_append, ih []]

/-- No whitespace character is an ASCII word or punctuation character. -/
theorem space_chars_not_word :
    ∀ c ∈ py_space_chars, ascii_word c = false ∧ (c == '-') = false ∧ (c == '+') = false
      ∧ (c == '.') = false ∧ (c == ',') = false := by decide

/-- With a whitespace-disjoint word oracle, whitespace characters are
never kept inside chunks. -/
theorem space_not_kept (wordx : Char → Bool)
    (hwx : ∀ c, py_isspace c = true → wordx c = false)
    (c : Char) (hc : py_isspace c = true) : keep_char wordx c = false := by
  have hw : wordx c = false := hwx c hc
  have hmem : c ∈ py_space_chars := by
    unfold py_isspace at hc
    rw [List.contains_eq_any_beq] at hc
    obtain ⟨x, hx, hbx⟩ := List.any_eq_true.mp hc
    rw [beq_iff_eq.mp hbx]
    exact hx
  obtain ⟨h1, h2, h3, h4, h5⟩ := space_chars_not_word c hmem
  unfold keep_char py_isword
  rw [h1, hw, h2, h3, h4, h5]
  rfl

/-- On non-delimiter characters, "not whitespace" coincides with the
keep predicate (whitespace-disjoint word oracle assumed). -/
theorem token_pred_eq (wordx : Char → Bool)
    (hwx : ∀ c, py_isspace c = true → wordx c = false)
    (c : Char) (hnd : is_delim wordx c = false) :
    (!py_isspace c) = keep_char wordx c := by
  unfold is_delim at hnd
  by_cases hs : py_isspace c = true
  · rw [hs, space_not_kept wordx hwx c hs]
    rfl
  · have hs2 : py_isspace c = false := by
      cases hsb : py_isspace c
      · rfl
      · exact absurd hsb hs
    rw [hs2] at hnd
    rw [hs2]
    rw [Bool.or_false] at hnd
    cases hk : keep_char wordx c
    · rw [hk] at hnd
      exact absurd hnd (by decide)
    · rfl

/-- The source's chunk pipeline (regex split on non-word characters,
filter empties, space-join, whitespace split) yields exactly the maximal
runs of kept characters. -/
theorem chunks_eq (wordx : Char → Bool)
    (hwx : ∀ c, py_isspace c = true → wordx c = false) (text : List Char) :
    split_runs (fun c => !py_isspace c)
        (join_space (((split_at_pred (is_delim wordx) text).1
            :: (split_at_pred (is_delim wordx) text).2).filter (fun t => !t.isEmpty)))
      = split_runs (keep_char wordx) text := by
  have hDK : ∀ c, is_delim wordx c = true → keep_char wordx c = false := by
    intro c h
    unfold is_delim at h
    cases hk : keep_char wordx c
    · rfl
    · rw [hk] at h
      simp at h
  rw [split_runs_join (fun c => !py_isspace c) (by decide)]
  rw [concat_map_filter_empty _ rfl]
  have hchars := split_at_pred_chars (is_delim wordx) text
  have hcong : ∀ t ∈ ((split_at_pred (is_delim wordx) text).1
      :: (split_at_pred (is_delim wordx) text).2),
      split_runs (fun c => !py_isspace c) t = split_runs (keep_char wordx) t := by
    intro t ht
    have hnd : ∀ c ∈ t, is_delim wordx c = false := by
      rcases List.mem_cons.mp ht with h1 | h2
      · exact fun c hc => hchars.1 c (h1 ▸ hc)
      · exact hchars.2 t h2
    exact split_runs_aux_congr _ _ t [] (fun c hc => token_pred_eq wordx hwx c (hnd c hc))
  rw [concat_map_congr _ _ _ hcong]
  show split_runs (keep_char wordx) (split_at_pred (is_delim wordx) text).1
      ++ concat_map (split_runs (keep_char wordx)) (split_at_pred (is_delim wordx) text).2
    = _
  exact concat_split_at (is_delim wordx) (keep_char wordx) hDK text []

/-- Claim C6: with extreme mode off only the whole-message attempt is
made; with extreme mode on, when the whole trimmed text fails to parse,
the result is the first successful parse among the whitespace-delimited
chunks left after discarding characters other than word characters,
sign, decimal point, comma and whitespace (chunks longer than 32
characters skipped), and is absent when no chunk parses. -/
theorem C6_extreme_scanning (uni : Char → Option Nat) (wordx : Char → Bool)
    (hwx : ∀ c, py_isspace c = true → wordx c = false)
    (content : List Char) (expected : Int) :
    parse_count_message uni wordx content expected false
        = _try_parse_numeric_token uni (py_strip content)
    ∧ (_try_parse_numeric_token uni (py_strip content) = none →
        parse_count_message uni wordx content expected true
          = first_parse uni (split_runs (keep_char wordx) (py_strip content))) := by
  constructor
  · rfl
  · intro hfail
    show (match _try_parse_numeric_token uni (py_strip content) with
      | some v => some v
      | none =>
        let sp := split_at_pred (is_delim wordx) (py_strip content)
        let tokens := (sp.1 :: sp.2).filter (fun (t : List Char) => !t.isEmpty)
        first_parse uni (split_runs (fun c => !py_isspace c) (join_space tokens))) = _
    rw [hfail]
    show first_parse uni (split_runs (fun c => !py_isspace c)
        (join_space (((split_at_pred (is_delim wordx) (py_strip content)).1
            :: (split_at_pred (is_delim wordx) (py_strip content)).2).filter
          (fun (t : List Char) => !t.isEmpty)))) = _
    rw [chunks_eq wordx hwx (py_strip content)]

/-- Witness for claim C6 on a concrete noisy extreme-mode message. -/
theorem C6_extreme_scanning_witness :
    (parse_count_message uni0 wordx0 "go go 1337 lets go".toList 0 false
        = _try_parse_numeric_token uni0 (py_strip "go go 1337 lets go".toList))
    ∧ (_try_parse_numeric_token uni0 (py_strip "go go 1337 lets go".toList) = none →
        parse_count_message uni0 wordx0 "go go 1337 lets go".toList 0 true
          = first_parse uni0
              (split_runs (keep_char wordx0) (py_strip "go go 1337 lets go".toList))) :=
  C6_extreme_scanning uni0 wordx0 (fun _ _ => rfl) "go go 1337 lets go".toList 0

/-- A string containing `e`/`E` also passes the `e`/`E`/`.` test. -/
theorem has_e_or_dot_of_has_e (s : List Char) (h : has_e s = true) :
    has_e_or_dot s = true := by
  unfold has_e at h
  unfold has_e_or_dot
  obtain ⟨x, hx, hpx⟩ := List.any_eq_true.mp h
  refine List.any_eq_true.mpr ⟨x, hx, ?_⟩
  rw [Bool.or_eq_true] at hpx
  rcases hpx with h1 | h1 <;> simp [h1]

/-- Universal exponent-guard direction: whenever the cleaned token
contains an `e`/`E` and the source's own exponent extraction reads an
exponent of magnitude above `EXTREME_MAX_EXPONENT`, the token parses to
`none` — well-formed or not. -/
theorem exp_guard_universal (uni : Char → Option Nat) (tok : List Char) (ex : Int)
    (he : has_e (py_clean (_normalize_unicode_digits uni (py_strip tok))) = true)
    (hex : exp_after_e (py_clean (_normalize_unicode_digits uni (py_strip tok))) = some ex)
    (hbig : EXTREME_MAX_EXPONENT < ex.natAbs) :
    _try_parse_numeric_token uni tok = none := by
  unfold _try_parse_numeric_token
  dsimp only
  split
  · rfl
  · split
    · rfl
    · rw [if_pos (has_e_or_dot_of_has_e _ he)]
      unfold decimal_branch
      split
      · rfl
      · next d hd =>
        by_cases hint : decimal_is_integral d = true
        · rw [if_pos hint, if_pos he, hex]
          dsimp only
          rw [if_pos hbig]
        · rw [if_neg hint]

/-- No whitespace character is a decimal digit. -/
theorem space_chars_not_digit : ∀ c ∈ py_space_chars, c.isDigit = false := by decide

/-- A character recognized by `py_isspace` belongs to the whitespace list. -/
theorem py_isspace_mem (c : Char) (hc : py_isspace c = true) : c ∈ py_space_chars := by
  unfold py_isspace at hc
  rw [List.contains_eq_any_beq] at hc
  obtain ⟨x, hx, hbx⟩ := List.any_eq_true.mp hc
  rw [beq_iff_eq.mp hbx]
  exact hx

/-- Digits are not whitespace. -/
theorem digit_not_space (c : Char) (hd : c.isDigit = true) : py_isspace c = false := by
  cases hs : py_isspace c
  · rfl
  · have h2 := space_chars_not_digit c (py_isspace_mem c hs)
    rw [hd] at h2
    exact absurd h2 (by decide)

/-- A digit character is `==`-distinct from every non-digit character. -/
theorem digit_beq_false (c x : Char) (hc : c.isDigit = true) (hx : x.isDigit = false) :
    (c == x) = false := by
  cases hbe : c == x
  · rfl
  · exfalso
    rw [beq_iff_eq.mp hbe] at hc
    rw [hc] at hx
    exact absurd hx (by decide)

/-- Dropping while a predicate fails on the head leaves the list alone. -/
theorem dropWhile_eq_self_of (p : Char → Bool) (s : List Char) (h : ∀ c ∈ s, p c = false) :
    s.dropWhile p = s := by
  cases s with
  | nil => rfl
  | cons c r =>
    rw [List.dropWhile_cons, h c (List.mem_cons_self c r), if_neg Bool.false_ne_true]

/-- `str.strip` leaves a string with no whitespace anywhere alone. -/
theorem py_strip_id (s : List Char) (h : ∀ c ∈ s, py_isspace c = false) : py_strip s = s := by
  unfold py_strip
  rw [dropWhile_eq_self_of _ s h]
  rw [dropWhile_eq_self_of _ s.reverse (fun c hc => h c (List.mem_reverse.mp hc))]
  exact List.reverse_reverse s

/-- Digit normalization leaves a string alone when the oracle recognizes
none of its characters. -/
theorem normalize_id (uni : Char → Option Nat) (s : List Char)
    (h : ∀ c ∈ s, uni c = none) : _normalize_unicode_digits uni s = s := by
  induction s with
  | nil => rfl
  | cons c r ih =>
    show (match uni c with
      | some d => str_of_nat d
      | none => [c]) ++ _normalize_unicode_digits uni r = c :: r
    rw [h c (List.mem_cons_self c r), ih (fun x hx => h x (List.mem_cons_of_mem c hx))]
    rfl

/-- Cleaning leaves a string with no comma, underscore or space alone. -/
theorem py_clean_id (s : List Char)
    (h : ∀ c ∈ s, (c == ',') = false ∧ (c == '_') = false ∧ (c == ' ') = false) :
    py_clean s = s := by
  induction s with
  | nil => rfl
  | cons c r ih =>
    obtain ⟨h1, h2, h3⟩ := h c (List.mem_cons_self c r)
    unfold py_clean
    rw [List.filter_cons]
    rw [if_pos (by rw [h1, h2, h3]; rfl)]
    unfold py_clean at ih
    rw [ih (fun x hx => h x (List.mem_cons_of_mem c hx))]

theorem takeWhile_append_all (p : Char → Bool) (xs ys : List Char)
    (h : ∀ c ∈ xs, p c = true) :
    (xs ++ ys).takeWhile p = xs ++ ys.takeWhile p := by
  induction xs with
  | nil => rfl
  | cons c r ih =>
    rw [List.cons_append, List.takeWhile_cons, h c (List.mem_cons_self c r), if_pos rfl,
        ih (fun x hx => h x (List.mem_cons_of_mem c hx)), List.cons_append]

theorem dropWhile_append_all (p : Char → Bool) (xs ys : List Char)
    (h : ∀ c ∈ xs, p c = true) :
    (xs ++ ys).dropWhile p = ys.dropWhile p := by
  induction xs with
  | nil => rfl
  | cons c r ih =>
    rw [List.cons_append, List.dropWhile_cons, h c (List.mem_cons_self c r), if_pos rfl,
        ih (fun x hx => h x (List.mem_cons_of_mem c hx))]

theorem takeWhile_cons_neg (p : Char → Bool) (c : Char) (r : List Char) (h : p c = false) :
    (c :: r).takeWhile p = [] := by
  rw [List.takeWhile_cons, h, if_neg Bool.false_ne_true]

theorem dropWhile_cons_neg (p : Char → Bool) (c : Char) (r : List Char) (h : p c = false) :
    (c :: r).dropWhile p = c :: r := by
  rw [List.dropWhile_cons, h, if_neg Bool.false_ne_true]

theorem takeWhile_all (p : Char → Bool) (s : List Char) (h : ∀ c ∈ s, p c = true) :
    s.takeWhile p = s := by
  have h2 := takeWhile_append_all p s [] h
  simpa using h2

theorem dropWhile_all (p : Char → Bool) (s : List Char) (h : ∀ c ∈ s, p c = true) :
    s.dropWhile p = [] := by
  have h2 := dropWhile_append_all p s [] h
  simpa using h2

/-- Evaluation of `strip_sign` on a signless head. -/
theorem strip_sign_other (c : Char) (r : List Char)
    (h1 : (c == '-') = false) (h2 : (c == '+') = false) :
    strip_sign (c :: r) = (false, c :: r) := by
  unfold strip_sign
  dsimp only
  rw [h1, if_neg Bool.false_ne_true, h2, if_neg Bool.false_ne_true]

/-- Evaluation of `strip_sign` on the rendered optional minus sign. -/
theorem strip_sign_render (neg : Bool) (c : Char) (r : List Char)
    (h1 : (c == '-') = false) (h2 : (c == '+') = false) :
    strip_sign ((if neg then ['-'] else []) ++ (c :: r)) = (neg, c :: r) := by
  cases neg
  · exact strip_sign_other c r h1 h2
  · rfl

theorem split_dot_cons_dot (r : List Char) :
    split_dot ('.' :: r) = (r.takeWhile Char.isDigit, r.dropWhile Char.isDigit) := rfl

theorem split_dot_other (c : Char) (r : List Char) (h : (c == '.') = false) :
    split_dot (c :: r) = ([], c :: r) := by
  unfold split_dot
  dsimp only
  rw [h, if_neg Bool.false_ne_true]

/-- Evaluation of `Decimal` parsing on a well-formed rendered token
`sign? digits (. digits)? (e|E) sign? digits`.  The fractional segment
`dp` is either a dot followed by the fraction digits or absent (in which
case the fraction is empty). -/
theorem parse_decimal_render (neg bigE esneg : Bool) (ip dp fp esgn ed : List Char)
    (hip : ∀ c ∈ ip, c.isDigit = true) (hfp : ∀ c ∈ fp, c.isDigit = true)
    (hed : ∀ c ∈ ed, c.isDigit = true) (hedne : ed ≠ [])
    (hcoeff : ¬(ip = [] ∧ fp = [])) (hdp : dp = '.' :: fp ∨ (dp = [] ∧ fp = []))
    (hesgn : (esgn = [] ∧ esneg = false) ∨ (esgn = ['+'] ∧ esneg = false)
      ∨ (esgn = ['-'] ∧ esneg = true)) :
    parse_decimal ((if neg then ['-'] else []) ++ (ip ++ (dp
        ++ ((if bigE then 'E' else 'e') :: (esgn ++ ed)))))
      = some ⟨neg, digits_to_nat (ip ++ fp), fp.length,
              (if esneg then -1 else 1) * (digits_to_nat ed : Int)⟩ := by
  have hechd : (if bigE then 'E' else 'e').isDigit = false := by cases bigE <;> decide
  have heche : ((if bigE then 'E' else 'e') == 'e' || (if bigE then 'E' else 'e') == 'E')
      = true := by cases bigE <;> decide
  have hechdot : ((if bigE then 'E' else 'e') == '.') = false := by cases bigE <;> decide
  obtain ⟨c0, ed0, rfl⟩ : ∃ c r, ed = c :: r := by
    cases ed with
    | nil => exact absurd rfl hedne
    | cons c r => exact ⟨c, r, rfl⟩
  have hc0 : c0.isDigit = true := hed c0 (List.mem_cons_self c0 ed0)
  have hssexp : strip_sign (esgn ++ (c0 :: ed0)) = (esneg, c0 :: ed0) := by
    rcases hesgn with ⟨rfl, rfl⟩ | ⟨rfl, rfl⟩ | ⟨rfl, rfl⟩
    · exact strip_sign_other c0 ed0 (digit_beq_false _ _ hc0 (by decide))
        (digit_beq_false _ _ hc0 (by decide))
    · rfl
    · rfl
  have hedtake : (c0 :: ed0).takeWhile Char.isDigit = c0 :: ed0 := takeWhile_all _ _ hed
  have heddrop : (c0 :: ed0).dropWhile Char.isDigit = [] := dropWhile_all _ _ hed
  rcases hdp with rfl | ⟨rfl, rfl⟩
  · obtain ⟨cb, rb, hbeq, hb1, hb2⟩ : ∃ cb rb,
        ip ++ (('.' :: fp) ++ ((if bigE then 'E' else 'e') :: (esgn ++ (c0 :: ed0)))) = cb :: rb
        ∧ (cb == '-') = false ∧ (cb == '+') = false := by
      cases ip with
      | nil => exact ⟨'.', _, rfl, by decide, by decide⟩
      | cons c ip2 =>
        exact ⟨c, _, rfl,
          digit_beq_false _ _ (hip c (List.mem_cons_self c ip2)) (by decide),
          digit_beq_false _ _ (hip c (List.mem_cons_self c ip2)) (by decide)⟩
    have hguard : (ip.isEmpty && fp.isEmpty) = false := by
      cases hip0 : ip with
      | cons c ip2 => rfl
      | nil =>
        cases hfp0 : fp with
        | nil => exact absurd ⟨hip0, hfp0⟩ hcoeff
        | cons f fp2 => rfl
    unfold parse_decimal
    dsimp only
    rw [hbeq, strip_sign_render neg cb rb hb1 hb2]
    dsimp only
    rw [← hbeq]
    rw [takeWhile_append_all _ ip _ hip, dropWhile_append_all _ ip _ hip,
        List.cons_append, takeWhile_cons_neg _ '.' _ (by decide),
        dropWhile_cons_neg _ '.' _ (by decide), List.append_nil]
    rw [split_dot_cons_dot]
    rw [takeWhile_append_all _ fp _ hfp, dropWhile_append_all _ fp _ hfp,
        takeWhile_cons_neg _ _ _ hechd, dropWhile_cons_neg _ _ _ hechd, List.append_nil]
    try dsimp only
    rw [hguard, if_neg Bool.false_ne_true]
    try dsimp only
    rw [heche, if_pos rfl, hssexp]
    try dsimp only
    rw [hedtake, heddrop]
    simp only [List.isEmpty_cons, List.isEmpty_nil, Bool.not_true, Bool.or_false,
      Bool.false_eq_true, if_false]
  · have hipne : ip ≠ [] := fun h => hcoeff ⟨h, rfl⟩
    obtain ⟨cb, rb, rfl⟩ : ∃ cb rb, ip = cb :: rb := by
      cases ip with
      | nil => exact absurd rfl hipne
      | cons c r => exact ⟨c, r, rfl⟩
    have hcb : cb.isDigit = true := hip cb (List.mem_cons_self cb rb)
    have hbeq : (cb :: rb) ++ (([] : List Char)
        ++ ((if bigE then 'E' else 'e') :: (esgn ++ (c0 :: ed0))))
        = cb :: (rb ++ (([] : List Char)
        ++ ((if bigE then 'E' else 'e') :: (esgn ++ (c0 :: ed0))))) := rfl
    unfold parse_decimal
    dsimp only
    rw [hbeq, strip_sign_render neg cb _ (digit_beq_false _ _ hcb (by decide))
        (digit_beq_false _ _ hcb (by decide))]
    dsimp only
    rw [← hbeq]
    rw [List.nil_append]
    rw [takeWhile_append_all _ (cb :: rb) _ hip, dropWhile_append_all _ (cb :: rb) _ hip,
        takeWhile_cons_neg _ _ _ hechd, dropWhile_cons_neg _ _ _ hechd,
        List.append_nil]
    rw [split_dot_other _ _ hechdot]
    try dsimp only
    rw [show ((cb :: rb).isEmpty && (List.nil : List Char).isEmpty) = false from rfl,
        if_neg Bool.false_ne_true]
    try dsimp only
    rw [heche, if_pos rfl, hssexp]
    try dsimp only
    rw [hedtake, heddrop]
    simp only [List.isEmpty_cons, List.isEmpty_nil, Bool.not_true, Bool.or_false,
      Bool.false_eq_true, if_false]
    rw [List.append_nil]

theorem after_first_e_cons_e (c : Char) (r : List Char) (h : (c == 'e' || c == 'E') = true) :
    after_first_e (c :: r) = some (r.takeWhile (fun x => !(x == 'e' || x == 'E'))) := by
  unfold after_first_e
  rw [h, if_pos rfl]

theorem after_first_e_append (pre rest : List Char)
    (hpre : ∀ c ∈ pre, (c == 'e' || c == 'E') = false) :
    after_first_e (pre ++ rest) = after_first_e rest := by
  induction pre with
  | nil => rfl
  | cons c p ih =>
    rw [List.cons_append]
    show (if (c == 'e' || c == 'E') = true then _ else after_first_e (p ++ rest)) = _
    rw [hpre c (List.mem_cons_self c p), if_neg Bool.false_ne_true,
        ih (fun x hx => hpre x (List.mem_cons_of_mem c hx))]

/-- `filter` keeps a list whose members all pass. -/
theorem filter_all (p : Char → Bool) (s : List Char) (h : ∀ c ∈ s, p c = true) :
    s.filter p = s := by
  induction s with
  | nil => rfl
  | cons c r ih =>
    rw [List.filter_cons, if_pos (h c (List.mem_cons_self c r)),
        ih (fun x hx => h x (List.mem_cons_of_mem c hx))]

/-- The underscore grammar accepts a plain digit run. -/
theorem du_tail_digits (s : List Char) (h : ∀ c ∈ s, c.isDigit = true) : du_tail s = true := by
  induction s with
  | nil => rfl
  | cons c r ih =>
    have hc := h c (List.mem_cons_self c r)
    unfold du_tail
    rw [digit_beq_false c '_' hc (by decide), if_neg Bool.false_ne_true, hc,
        ih (fun x hx => h x (List.mem_cons_of_mem c hx))]
    rfl

theorem py_int_digits_of (s : List Char) (h : ∀ c ∈ s, c.isDigit = true) (hne : s ≠ []) :
    py_int_digits s = true := by
  cases s with
  | nil => exact absurd rfl hne
  | cons c r =>
    show (c.isDigit && du_tail r) = true
    rw [h c (List.mem_cons_self c r),
        du_tail_digits r (fun x hx => h x (List.mem_cons_of_mem c hx))]
    rfl

/-- Evaluation of `int()` on a rendered signed digit run. -/
theorem py_int_parse_render (esneg : Bool) (esgn ed : List Char)
    (hesgn : (esgn = [] ∧ esneg = false) ∨ (esgn = ['+'] ∧ esneg = false)
      ∨ (esgn = ['-'] ∧ esneg = true))
    (hed : ∀ c ∈ ed, c.isDigit = true) (hedne : ed ≠ []) :
    py_int_parse (esgn ++ ed) = some ((if esneg then -1 else 1) * (digits_to_nat ed : Int)) := by
  obtain ⟨c0, ed0, rfl⟩ : ∃ c r, ed = c :: r := by
    cases ed with
    | nil => exact absurd rfl hedne
    | cons c r => exact ⟨c, r, rfl⟩
  have hc0 : c0.isDigit = true := hed c0 (List.mem_cons_self c0 ed0)
  have hss : strip_sign (esgn ++ (c0 :: ed0)) = (esneg, c0 :: ed0) := by
    rcases hesgn with ⟨rfl, rfl⟩ | ⟨rfl, rfl⟩ | ⟨rfl, rfl⟩
    · exact strip_sign_other c0 ed0 (digit_beq_false _ _ hc0 (by decide))
        (digit_beq_false _ _ hc0 (by decide))
    · rfl
    · rfl
  have hstrip : py_strip (esgn ++ (c0 :: ed0)) = esgn ++ (c0 :: ed0) := by
    refine py_strip_id _ (fun c hc => ?_)
    rcases List.mem_append.mp hc with h | h
    · rcases hesgn with ⟨rfl, _⟩ | ⟨rfl, _⟩ | ⟨rfl, _⟩
      · exact absurd h (List.not_mem_nil c)
      · rw [List.mem_singleton.mp h]
        decide
      · rw [List.mem_singleton.mp h]
        decide
    · exact digit_not_space c (hed c h)
  unfold py_int_parse
  dsimp only
  rw [hstrip, hss]
  dsimp only
  rw [py_int_digits_of _ hed (fun h => List.noConfusion h), if_pos rfl]
  rw [filter_all _ _ (fun c hc => by
    rw [Bool.not_eq_true']
    exact digit_beq_false c '_' (hed c hc) (by decide))]

/-- Exact-integer conversion: `int(d)` against the decimal's written
components, for integral decimals. -/
theorem decimal_to_int_spec (d : PyDec) (h : decimal_is_integral d = true) :
    if (d.scale : Int) ≤ d.exp then
      decimal_to_int d
        = (if d.neg then -1 else 1) * (d.coeff : Int) * 10 ^ (d.exp - (d.scale : Int)).toNat
    else decimal_to_int d * 10 ^ ((d.scale : Int) - d.exp).toNat
        = (if d.neg then -1 else 1) * (d.coeff : Int) := by
  unfold decimal_is_integral at h
  unfold decimal_to_int
  by_cases hle : (d.scale : Int) ≤ d.exp
  · rw [if_pos hle, if_pos hle]
    cases d.neg <;> simp
  · rw [if_neg hle, if_neg hle]
    rw [if_neg hle] at h
    have hdvd : 10 ^ ((d.scale : Int) - d.exp).toNat ∣ d.coeff :=
      Nat.dvd_of_mod_eq_zero (by exact_mod_cast beq_iff_eq.mp h)
    have hcancel : d.coeff / 10 ^ ((d.scale : Int) - d.exp).toNat
        * 10 ^ ((d.scale : Int) - d.exp).toNat = d.coeff := Nat.div_mul_cancel hdvd
    cases d.neg
    · simp only [Bool.false_eq_true, if_false, one_mul]
      exact_mod_cast congrArg (fun n : Nat => (n : Int)) hcancel
    · rw [if_pos rfl, if_pos rfl, neg_mul, neg_one_mul]
      exact congrArg Neg.neg (by exact_mod_cast congrArg (fun n : Nat => (n : Int)) hcancel)

/-- A rendered exact-decimal token with an exponent:
`sign? digits (. digits)? (e|E) sign? digits`. -/
def render_token (neg bigE : Bool) (ip dp esgn ed : List Char) : List Char :=
  (if neg then ['-'] else []) ++ (ip ++ (dp
    ++ ((if bigE then 'E' else 'e') :: (esgn ++ ed))))

/-- The `PyDec` a rendered token denotes. -/
def render_dec (neg esneg : Bool) (ip fp ed : List Char) : PyDec :=
  ⟨neg, digits_to_nat (ip ++ fp), fp.length,
   (if esneg then -1 else 1) * (digits_to_nat ed : Int)⟩

/-- Claim C7: the parser's exponent guard.  First, for every token whose
cleaned form contains an `e`/`E` and whose own exponent extraction reads
a magnitude above 18, the parser returns absent — however the token is
otherwise shaped.  Second, every well-formed rendered exact-integer
decimal with an exponent within the bound (and a digit-oracle that is
silent on the token, as a faithful one is on ASCII) parses to exactly
the integer it denotes. -/
theorem C7_exponent_guard (uni : Char → Option Nat) :
    (∀ (tok : List Char) (ex : Int),
        has_e (py_clean (_normalize_unicode_digits uni (py_strip tok))) = true →
        exp_after_e (py_clean (_normalize_unicode_digits uni (py_strip tok))) = some ex →
        EXTREME_MAX_EXPONENT < ex.natAbs →
        _try_parse_numeric_token uni tok = none)
    ∧ (∀ (neg bigE esneg : Bool) (ip dp fp esgn ed : List Char),
        (∀ c ∈ ip, c.isDigit = true) → (∀ c ∈ fp, c.isDigit = true) →
        (∀ c ∈ ed, c.isDigit = true) → ed ≠ [] → ¬(ip = [] ∧ fp = []) →
        (dp = '.' :: fp ∨ (dp = [] ∧ fp = [])) →
        ((esgn = [] ∧ esneg = false) ∨ (esgn = ['+'] ∧ esneg = false)
          ∨ (esgn = ['-'] ∧ esneg = true)) →
        (∀ c ∈ render_token neg bigE ip dp esgn ed, uni c = none) →
        (render_dec neg esneg ip fp ed).exp.natAbs ≤ EXTREME_MAX_EXPONENT →
        decimal_is_integral (render_dec neg esneg ip fp ed) = true →
        _try_parse_numeric_token uni (render_token neg bigE ip dp esgn ed)
            = some (decimal_to_int (render_dec neg esneg ip fp ed))
        ∧ (if ((render_dec neg esneg ip fp ed).scale : Int)
              ≤ (render_dec neg esneg ip fp ed).exp then
            decimal_to_int (render_dec neg esneg ip fp ed)
              = (if (render_dec neg esneg ip fp ed).neg then -1 else 1)
                * ((render_dec neg esneg ip fp ed).coeff : Int)
                * 10 ^ ((render_dec neg esneg ip fp ed).exp
                    - ((render_dec neg esneg ip fp ed).scale : Int)).toNat
          else decimal_to_int (render_dec neg esneg ip fp ed)
                * 10 ^ (((render_dec neg esneg ip fp ed).scale : Int)
                    - (render_dec neg esneg ip fp ed).exp).toNat
              = (if (render_dec neg esneg ip fp ed).neg then -1 else 1)
                * ((render_dec neg esneg ip fp ed).coeff : Int))) := by
  constructor
  · exact fun tok ex he hex hbig => exp_guard_universal uni tok ex he hex hbig
  · intro neg bigE esneg ip dp fp esgn ed hip hfp hed hedne hcoeff hdp hesgn huni hsmall hint
    have heche : ((if bigE then 'E' else 'e') == 'e' || (if bigE then 'E' else 'e') == 'E')
        = true := by cases bigE <;> decide
    have hcls : ∀ c ∈ render_token neg bigE ip dp esgn ed,
        c.isDigit = true ∨ c = '-' ∨ c = '+' ∨ c = '.' ∨ c = 'e' ∨ c = 'E' := by
      intro c hc
      unfold render_token at hc
      rcases List.mem_append.mp hc with h | h
      · cases neg
        · simp at h
        · simp at h
          exact Or.inr (Or.inl h)
      · rcases List.mem_append.mp h with h2 | h2
        · exact Or.inl (hip c h2)
        · rcases List.mem_append.mp h2 with h3 | h3
          · rcases hdp with rfl | ⟨rfl, hfp0⟩
            · rcases List.mem_cons.mp h3 with h4 | h4
              · exact Or.inr (Or.inr (Or.inr (Or.inl h4)))
              · exact Or.inl (hfp c h4)
            · exact absurd h3 (List.not_mem_nil c)
          · rcases List.mem_cons.mp h3 with h4 | h4
            · cases bigE
              · simp at h4
                exact Or.inr (Or.inr (Or.inr (Or.inr (Or.inl h4))))
              · simp at h4
                exact Or.inr (Or.inr (Or.inr (Or.inr (Or.inr h4))))
            · rcases List.mem_append.mp h4 with h5 | h5
              · rcases hesgn with ⟨rfl, _⟩ | ⟨rfl, _⟩ | ⟨rfl, _⟩
                · exact absurd h5 (List.not_mem_nil c)
                · exact Or.inr (Or.inr (Or.inl (List.mem_singleton.mp h5)))
                · exact Or.inr (Or.inl (List.mem_singleton.mp h5))
              · exact Or.inl (hed c h5)
    have hspace : ∀ c ∈ render_token neg bigE ip dp esgn ed, py_isspace c = false := by
      intro c hc
      rcases hcls c hc with h | h | h | h | h | h
      · exact digit_not_space c h
      · rw [h]; decide
      · rw [h]; decide
      · rw [h]; decide
      · rw [h]; decide
      · rw [h]; decide
    have hcleanchars : ∀ c ∈ render_token neg bigE ip dp esgn ed,
        (!(c == ',' || c == '_' || c == ' ')) = true := by
      intro c hc
      rcases hcls c hc with h | h | h | h | h | h
      · rw [digit_beq_false c ',' h (by decide), digit_beq_false c '_' h (by decide),
            digit_beq_false c ' ' h (by decide)]
        rfl
      · rw [h]; decide
      · rw [h]; decide
      · rw [h]; decide
      · rw [h]; decide
      · rw [h]; decide
    have hechmem : (if bigE then 'E' else 'e') ∈ render_token neg bigE ip dp esgn ed := by
      unfold render_token
      exact List.mem_append.mpr (Or.inr (List.mem_append.mpr (Or.inr
        (List.mem_append.mpr (Or.inr (List.mem_cons_self _ _))))))
    have hstrip : py_strip (render_token neg bigE ip dp esgn ed)
        = render_token neg bigE ip dp esgn ed := py_strip_id _ hspace
    have hnorm : _normalize_unicode_digits uni (render_token neg bigE ip dp esgn ed)
        = render_token neg bigE ip dp esgn ed := normalize_id uni _ huni
    have hne : (render_token neg bigE ip dp esgn ed).isEmpty = false :=
      List.isEmpty_eq_false.mpr (List.ne_nil_of_mem hechmem)
    have hhd : ∃ ch r2, render_token neg bigE ip dp esgn ed = ch :: r2
        ∧ (ch == '+') = false := by
      unfold render_token
      cases neg
      · cases ip with
        | cons c ip2 =>
          exact ⟨c, _, rfl, digit_beq_false _ _ (hip c (List.mem_cons_self c ip2)) (by decide)⟩
        | nil =>
          rcases hdp with rfl | ⟨rfl, rfl⟩
          · exact ⟨'.', _, rfl, by decide⟩
          · exact absurd ⟨rfl, rfl⟩ hcoeff
      · exact ⟨'-', _, rfl, by decide⟩
    obtain ⟨ch, r2, hT, hch⟩ := hhd
    have hheadeq : ((render_token neg bigE ip dp esgn ed).head? == some '+') = false := by
      rw [hT]
      exact hch
    have hcleaneq : py_clean (render_token neg bigE ip dp esgn ed)
        = render_token neg bigE ip dp esgn ed := filter_all _ _ hcleanchars
    have hhed : has_e_or_dot (render_token neg bigE ip dp esgn ed) = true :=
      List.any_eq_true.mpr ⟨_, hechmem, by cases bigE <;> decide⟩
    have hhase : has_e (render_token neg bigE ip dp esgn ed) = true :=
      List.any_eq_true.mpr ⟨_, hechmem, by cases bigE <;> decide⟩
    have hafter : after_first_e (render_token neg bigE ip dp esgn ed)
        = some (esgn ++ ed) := by
      unfold render_token
      rw [after_first_e_append (if neg then ['-'] else []) _ (by
        intro c hc
        cases neg
        · simp at hc
        · simp at hc
          rw [hc]
          decide)]
      rw [after_first_e_append ip _ (fun c hc => by
        rw [digit_beq_false c 'e' (hip c hc) (by decide),
            digit_beq_false c 'E' (hip c hc) (by decide)]
        rfl)]
      rw [after_first_e_append dp _ (by
        intro c hc
        rcases hdp with rfl | ⟨rfl, _⟩
        · rcases List.mem_cons.mp hc with h4 | h4
          · rw [h4]
            decide
          · rw [digit_beq_false c 'e' (hfp c h4) (by decide),
                digit_beq_false c 'E' (hfp c h4) (by decide)]
            rfl
        · exact absurd hc (List.not_mem_nil c))]
      rw [after_first_e_cons_e _ _ heche]
      rw [takeWhile_all _ _ (by
        intro c hc
        rcases List.mem_append.mp hc with h5 | h5
        · rcases hesgn with ⟨rfl, _⟩ | ⟨rfl, _⟩ | ⟨rfl, _⟩
          · exact absurd h5 (List.not_mem_nil c)
          · rw [List.mem_singleton.mp h5]
            decide
          · rw [List.mem_singleton.mp h5]
            decide
        · rw [digit_beq_false c 'e' (hed c h5) (by decide),
              digit_beq_false c 'E' (hed c h5) (by decide)]
          rfl)]
    have hexp : exp_after_e (render_token neg bigE ip dp esgn ed)
        = some ((if esneg then -1 else 1) * (digits_to_nat ed : Int)) := by
      unfold exp_after_e
      rw [hafter]
      exact py_int_parse_render esneg esgn ed hesgn hed hedne
    have hpd : parse_decimal (render_token neg bigE ip dp esgn ed)
        = some ⟨neg, digits_to_nat (ip ++ fp), fp.length,
                (if esneg then -1 else 1) * (digits_to_nat ed : Int)⟩ :=
      parse_decimal_render neg bigE esneg ip dp fp esgn ed hip hfp hed hedne hcoeff hdp hesgn
    have hint2 : decimal_is_integral ⟨neg, digits_to_nat (ip ++ fp), fp.length,
        (if esneg then -1 else 1) * (digits_to_nat ed : Int)⟩ = true := hint
    have hsmall2 : ¬ EXTREME_MAX_EXPONENT
        < ((if esneg then -1 else 1) * (digits_to_nat ed : Int)).natAbs :=
      Nat.not_lt.mpr hsmall
    constructor
    · unfold _try_parse_numeric_token
      dsimp only
      rw [hstrip, hnorm, hne, if_neg Bool.false_ne_true, hheadeq, if_neg Bool.false_ne_true,
          hcleaneq, if_pos hhed]
      unfold decimal_branch
      rw [hpd]
      dsimp only
      rw [if_pos hint2, if_pos hhase, hexp]
      dsimp only
      rw [if_neg hsmall2]
      rfl
    · exact decimal_to_int_spec (render_dec neg esneg ip fp ed) hint

/-- Witness for claim C7: `5e19` is rejected by the guard, and the
rendered token `5e1` parses to the integer it denotes. -/
theorem C7_exponent_guard_witness :
    _try_parse_numeric_token uni0 "5e19".toList = none
    ∧ (_try_parse_numeric_token uni0 (render_token false false ['5'] [] [] ['1'])
          = some (decimal_to_int (render_dec false false ['5'] [] ['1']))
        ∧ (if ((render_dec false false ['5'] [] ['1']).scale : Int)
              ≤ (render_dec false false ['5'] [] ['1']).exp then
            decimal_to_int (render_dec false false ['5'] [] ['1'])
              = (if (render_dec false false ['5'] [] ['1']).neg then -1 else 1)
                * ((render_dec false false ['5'] [] ['1']).coeff : Int)
                * 10 ^ ((render_dec false false ['5'] [] ['1']).exp
                    - ((render_dec false false ['5'] [] ['1']).scale : Int)).toNat
          else decimal_to_int (render_dec false false ['5'] [] ['1'])
                * 10 ^ (((render_dec false false ['5'] [] ['1']).scale : Int)
                    - (render_dec false false ['5'] [] ['1']).exp).toNat
              = (if (render_dec false false ['5'] [] ['1']).neg then -1 else 1)
                * ((render_dec false false ['5'] [] ['1']).coeff : Int))) :=
  ⟨(C7_exponent_guard uni0).1 "5e19".toList 19 (by decide) (by decide) (by decide),
   (C7_exponent_guard uni0).2 false false false ['5'] [] [] [] ['1']
     (by decide) (by decide) (by decide) (by decide) (by decide) (Or.inr ⟨rfl, rfl⟩)
     (Or.inl ⟨rfl, rfl⟩) (fun _ _ => rfl) (by decide) (by decide)⟩

example : _try_parse_numeric_token uni0 "42".toList = some 42 := by decide
example : _try_parse_numeric_token uni0 " 1,337 ".toList = some 1337 := by decide
example : _try_parse_numeric_token uni0 "+5".toList = none := by decide
example : _try_parse_numeric_token uni0 "5e19".toList = none := by decide
example : _try_parse_numeric_token uni0 "5e18".toList = some 5000000000000000000 := by decide
example : _try_parse_numeric_token uni0 "1.50e1".toList = some 15 := by decide
example : _try_parse_numeric_token uni0 "1.5".toList = none := by decide
example : _try_parse_numeric_token uni0 "-3".toList = some (-3) := by decide
example : _try_parse_numeric_token uni0 "--3".toList = none := by decide
example : parse_count_message uni0 wordx0 "go go 1337 lets go".toList 0 true = some 1337 := by decide
example : parse_count_message uni0 wordx0 "go go 1337 lets go".toList 0 false = none := by decide
example : is_milestone 1337 = true := by decide
example : is_milestone 10000 = true := by decide
example : is_milestone 12000 = false := by decide
example : is_milestone 1000 = true := by decide
example : is_milestone 9999 = false := by decide
example : is_milestone 90000 = true := by decide

example : backfill_from_history uni0 wordx0 false
    [{ bot := false, author := 1, channel := 5, content := "5".toList },
     { bot := false, author := 2, channel := 5, content := "4".toList },
     { bot := false, author := 3, channel := 5, content := "9".toList }] 5000
  = (5, some 1) := by decide

example : backfill_from_history uni0 wordx0 false
    [{ bot := false, author := 1, channel := 5, content := "-3".toList }] 5000
  = (0, some 1) := by decide

example : backfill_from_history uni0 wordx0 false ([] : List HMsg) 5000 = (0, none) := by decide

example :
    (on_message_step uni0 wordx0
      { channel_id := some 5, last_number := 1, last_user_id := some 7,
        high_score := 3, high_scorer_id := some 7 } (fun _ => 0) false
      { bot := false, author := 7, channel := 5, content := "2".toList }).2.2
      = some Outcome.RejectedRepeatPoster := by decide
